import Mathlib

/-!
# Verification of the `edfrw` EDF header codec and record-access layer

Shallow embedding of the Python package `edfrw` (modules `headers.py`,
`reader.py`, `writer.py`).  Files are modelled as lists of byte values
(`Bytes := List Nat`), Python `str` values as their ASCII byte lists,
Python `int` as `Int`, and Python `float` as `Rat` with exact arithmetic
(decimal rendering is modelled for rationals with a finite decimal
expansion; scientific notation is not modelled).  Python exceptions are
modelled with `Except PyErr`.
-/

set_option maxRecDepth 10000

/-- Python exception kinds raised by the embedded code paths. -/
inductive PyErr where
  | valueError
  | headerException
  | structError
  | unicodeError
  | zeroDivisionError
  | assertFailed
  | seekError
  deriving DecidableEq, Repr

/-- A file or string is a list of byte values. -/
abbrev Bytes := List Nat

/-- ASCII codes of a string literal (used to transcribe Python literals). -/
def ascii (s : String) : Bytes := s.toList.map Char.toNat

/-- Python `str.isspace` on one ASCII byte (space, tab, LF, CR, VT, FF):
the characters removed by `str.strip()` and split on by `str.split()`. -/
def isSpaceByte (c : Nat) : Bool :=
  c = 32 || c = 9 || c = 10 || c = 13 || c = 11 || c = 12

/-- Python `str.strip()`: remove trailing whitespace (via the reversed
list), then leading whitespace. -/
def trimBytes (bs : Bytes) : Bytes :=
  ((bs.reverse.dropWhile isSpaceByte).reverse).dropWhile isSpaceByte

/-- Python `'{:<w}'.format(s)`: left-justify, pad with spaces to width `w`.
Like the Python format spec, it never truncates a too-long value. -/
def leftJust (w : Nat) (bs : Bytes) : Bytes :=
  bs ++ List.replicate (w - bs.length) 32

/-- Replace one byte value by another everywhere (Python `str.replace`
with single-character arguments). -/
def replaceByte (a b : Nat) (bs : Bytes) : Bytes :=
  bs.map (fun c => if c = a then b else c)

/-- `struct.unpack`-style slicing: cut a byte string into consecutive
pieces of the given sizes. -/
def splitSizes : List Nat → Bytes → List Bytes
  | [], _ => []
  | w :: ws, bs => bs.take w :: splitSizes ws (bs.drop w)

/-- Python `str.split(sep)` for a one-byte separator. -/
def splitOnByte (sep : Nat) : Bytes → List Bytes
  | [] => [[]]
  | c :: cs =>
    if c = sep then [] :: splitOnByte sep cs
    else
      match splitOnByte sep cs with
      | [] => [[c]]
      | w :: ws => (c :: w) :: ws

theorem dropWhile_length_le (p : Nat → Bool) (l : Bytes) :
    (l.dropWhile p).length ≤ l.length := by
  induction l with
  | nil => simp [List.dropWhile]
  | cons c cs ih =>
    simp only [List.dropWhile]
    split
    · simpa using Nat.le_succ_of_le ih
    · simp

/-- Python `str.split()` with no argument: split on runs of whitespace,
discarding empty words. -/
def splitWS : Bytes → List Bytes
  | [] => []
  | c :: cs =>
    if isSpaceByte c then splitWS cs
    else
      (c :: cs.takeWhile (fun x => !isSpaceByte x)) ::
        splitWS (cs.dropWhile (fun x => !isSpaceByte x))
  termination_by bs => bs.length
  decreasing_by
    · simp
    · have := dropWhile_length_le (fun x => !isSpaceByte x) cs
      simp only [List.length_cons]
      omega

/-- Base-10 digits, least significant first, by fuel-counted repeated
division (so that concrete values reduce inside the kernel). -/
def digits10 : Nat → Nat → List Nat
  | 0, _ => []
  | _ + 1, 0 => []
  | fuel + 1, n + 1 => (n + 1) % 10 :: digits10 fuel ((n + 1) / 10)

/-- Decimal digits of a natural number, most significant first
(`str(n)` for a non-negative Python int). -/
def natToDec (n : Nat) : Bytes :=
  if n = 0 then [48] else ((digits10 n n).map (fun d => 48 + d)).reverse

/-- Python `str(z)` for an int. -/
def intToDec (z : Int) : Bytes :=
  if z < 0 then 45 :: natToDec z.natAbs else natToDec z.natAbs

/-- Is this byte an ASCII decimal digit? -/
def isDigitByte (c : Nat) : Bool := 48 ≤ c && c ≤ 57

/-- Value of a string of decimal digits, most significant first. -/
def decToNat (bs : Bytes) : Nat :=
  Nat.ofDigits 10 ((bs.map (fun c => c - 48)).reverse)

/-- Parse a non-empty all-digit byte string as a natural number. -/
def parseNat (bs : Bytes) : Option Nat :=
  if bs.isEmpty then none
  else if bs.all isDigitByte then some (decToNat bs) else none

/-- Python `int(str)`: strip whitespace, optional sign, decimal digits.
(Underscore digit grouping is not modelled.) -/
def parseIntPy (bs : Bytes) : Option Int :=
  let t := trimBytes bs
  if t.headD 0 = 43 then (parseNat t.tail).map (fun n => (n : Int))
  else if t.headD 0 = 45 then (parseNat t.tail).map (fun n => -(n : Int))
  else (parseNat t).map (fun n => (n : Int))

/-- Smallest exponent `e ≤ 64` with `d ∣ 10 ^ e` (64 covers every header
value of interest), or `0` when there is none. -/
def decExp (d : Nat) : Nat :=
  match (List.range 65).find? (fun k => decide (d ∣ 10 ^ k)) with
  | some k => k
  | none => 0

/-- The scaled magnitude of a decimal rational: `|num| * 10 ^ e / den`
(exact when `den` divides `10 ^ e`). -/
def ratMant (q : ℚ) : Nat := q.num.natAbs * 10 ^ decExp q.den / q.den

/-- The digit string of `ratMant q`, zero-padded on the left so that at
least one digit sits before the decimal point. -/
def ratDigitStr (q : ℚ) : Bytes :=
  if (natToDec (ratMant q)).length ≤ decExp q.den then
    List.replicate (decExp q.den + 1 - (natToDec (ratMant q)).length) 48 ++
      natToDec (ratMant q)
  else natToDec (ratMant q)

/-- Python `str(float)` restricted to rationals with a finite decimal
expansion: sign, integer digits, point, fraction digits with no trailing
zeros (`str(5.0) = '5.0'`, `str(0.5) = '0.5'`).  Scientific notation is
not modelled. -/
def ratToDec (q : ℚ) : Bytes :=
  let e := decExp q.den
  let ds := ratDigitStr q
  (if q.num < 0 then [45] else []) ++ ds.take (ds.length - e) ++
    46 :: (if e = 0 then [48] else ds.drop (ds.length - e))

/-- Python `float(str)` on an unsigned body: `d+`, `d+.d*` or `.d+`
(exponent forms and `inf`/`nan` are not modelled). -/
def parseUFloat (t : Bytes) : Option ℚ :=
  match splitOnByte 46 t with
  | [ip] => (parseNat ip).map (fun n => (n : ℚ))
  | [ip, fp] =>
    if ip.isEmpty && fp.isEmpty then none
    else if ip.all isDigitByte && fp.all isDigitByte then
      some ((decToNat ip : ℚ) + (decToNat fp : ℚ) / (10: ℚ) ^ fp.length)
    else none
  | _ => none

/-- Python `float(str)`: strip whitespace, optional sign, decimal body. -/
def parseFloatPy (bs : Bytes) : Option ℚ :=
  let t := trimBytes bs
  if t.headD 0 = 43 then parseUFloat t.tail
  else if t.headD 0 = 45 then (parseUFloat t.tail).map (fun q => -q)
  else parseUFloat t

/-- A calendar date (`datetime.date`). -/
structure EdfDate where
  year : Nat
  month : Nat
  day : Nat
  deriving DecidableEq, Repr

/-- A time of day to second precision (`datetime.time`). -/
structure EdfTime where
  hour : Nat
  minute : Nat
  second : Nat
  deriving DecidableEq, Repr

def isLeapYear (y : Nat) : Bool :=
  y % 4 = 0 && (y % 100 ≠ 0 || y % 400 = 0)

def daysInMonth (y m : Nat) : Nat :=
  if m = 2 then (if isLeapYear y then 29 else 28)
  else if m = 4 || m = 6 || m = 9 || m = 11 then 30
  else 31

/-- Date validation done by `datetime.strptime` / the `datetime` constructor. -/
def validDate (y m d : Nat) : Bool :=
  1 ≤ y && 1 ≤ m && m ≤ 12 && 1 ≤ d && d ≤ daysInMonth y m

/-- C-locale month abbreviations produced by `strftime('%b')`. -/
def monthNames : List Bytes :=
  [ascii "Jan", ascii "Feb", ascii "Mar", ascii "Apr", ascii "May", ascii "Jun",
   ascii "Jul", ascii "Aug", ascii "Sep", ascii "Oct", ascii "Nov", ascii "Dec"]

def monthAbbrev (m : Nat) : Bytes := monthNames.getD (m - 1) []

/-- ASCII upper-casing (strptime matches `%b` case-insensitively). -/
def upperByte (c : Nat) : Nat := if 97 ≤ c && c ≤ 122 then c - 32 else c

def monthFromAbbrev (bs : Bytes) : Option Nat :=
  match monthNames.findIdx? (fun nm => nm.map upperByte = bs.map upperByte) with
  | some i => some (i + 1)
  | none => none

/-- `%02d`-style zero padding of a value below 100. -/
def pad2 (n : Nat) : Bytes := if n < 10 then [48, 48 + n] else natToDec n

/-- `strftime('%d.%m.%y')` (EDF main-header start date). -/
def fmtHdrDate (d : EdfDate) : Bytes :=
  pad2 d.day ++ [46] ++ pad2 d.month ++ [46] ++ pad2 (d.year % 100)

/-- `'{:02}.{:02}.{:02}'.format(hour, minute, second)` (EDF start time). -/
def fmtHdrTime (t : EdfTime) : Bytes :=
  pad2 t.hour ++ [46] ++ pad2 t.minute ++ [46] ++ pad2 t.second

/-- `strftime('%d-%b-%Y')` (subject date of birth / recording start date). -/
def fmtDOB (d : EdfDate) : Bytes :=
  pad2 d.day ++ [45] ++ monthAbbrev d.month ++ [45] ++ natToDec d.year

/-- `strptime(s, '%Y-%m-%d')`. -/
def parseISOdate (bs : Bytes) : Option EdfDate :=
  match splitOnByte 45 bs with
  | [y, m, d] => do
    let yy ← parseNat y
    let mm ← parseNat m
    let dd ← parseNat d
    if y.length ≤ 4 && m.length ≤ 2 && d.length ≤ 2 && validDate yy mm dd then
      some ⟨yy, mm, dd⟩
    else none
  | _ => none

/-- `strptime(s, '%d-%b-%Y')`. -/
def parseDOBdate (bs : Bytes) : Option EdfDate :=
  match splitOnByte 45 bs with
  | [d, m, y] => do
    let dd ← parseNat d
    let mm ← monthFromAbbrev m
    let yy ← parseNat y
    if d.length ≤ 2 && y.length ≤ 4 && validDate yy mm dd then
      some ⟨yy, mm, dd⟩
    else none
  | _ => none

/-- The `strptime` two-digit-year pivot: 0–68 map to 2000–2068,
69–99 to 1969–1999. -/
def pivotYear (y2 : Nat) : Nat := if y2 ≤ 68 then 2000 + y2 else 1900 + y2

/-- `strptime(s, '%d.%m.%y')`. -/
def parseHdrDate (bs : Bytes) : Option EdfDate :=
  match splitOnByte 46 bs with
  | [d, m, y] => do
    let dd ← parseNat d
    let mm ← parseNat m
    let y2 ← parseNat y
    if d.length ≤ 2 && m.length ≤ 2 && y.length ≤ 2 && y2 ≤ 99 &&
        validDate (pivotYear y2) mm dd then
      some ⟨pivotYear y2, mm, dd⟩
    else none
  | _ => none

/-- `strptime(s, sep.join(['%H', '%M', '%S']))` for a one-byte separator
(58 for `:`, 46 for `.`). -/
def parseTimeSep (sep : Nat) (bs : Bytes) : Option EdfTime :=
  match splitOnByte sep bs with
  | [h, m, s] => do
    let hh ← parseNat h
    let mm ← parseNat m
    let ss ← parseNat s
    if h.length ≤ 2 && m.length ≤ 2 && s.length ≤ 2 &&
        hh < 24 && mm < 60 && ss < 60 then
      some ⟨hh, mm, ss⟩
    else none
  | _ => none

/-! ## The data model (`headers.py`) -/

/-- `EdfSubjectId`: the patient identification subfields.  `dob = none`
models the `'X'` (unknown) value stored by the Python class. -/
structure EdfSubjectId where
  code : Bytes
  sex : Bytes
  dob : Option EdfDate
  name : Bytes
  deriving DecidableEq, Repr

/-- The `code` setter: strip, `'X'` when blank, spaces to underscores. -/
def EdfSubjectId.set_code (v : Bytes) : Bytes :=
  let v := trimBytes v
  let v := if v.isEmpty then ascii "X" else v
  replaceByte 32 95 v

/-- The `sex` setter: strip, `'X'` when blank, and reject anything other
than `'M'`, `'F'`, `'X'` with a `ValueError`. -/
def EdfSubjectId.set_sex (v : Bytes) : Except PyErr Bytes :=
  let s := trimBytes v
  let s := if s.isEmpty then ascii "X" else s
  if s = ascii "M" || s = ascii "F" || s = ascii "X" then .ok s
  else .error .valueError

/-- The `dob` setter on a string value: `''`/`'X'` store `'X'` (here
`none`), otherwise try ISO format then `'%d-%b-%Y'`. -/
def EdfSubjectId.set_dob_str (v : Bytes) : Except PyErr (Option EdfDate) :=
  if v.isEmpty || v = ascii "X" then .ok none
  else
    match parseISOdate v with
    | some d => .ok (some d)
    | none =>
      match parseDOBdate v with
      | some d => .ok (some d)
      | none => .error .valueError

/-- The `name` setter: same normalization as `code`. -/
def EdfSubjectId.set_name (v : Bytes) : Bytes :=
  let v := trimBytes v
  let v := if v.isEmpty then ascii "X" else v
  replaceByte 32 95 v

/-- `EdfSubjectId(code, sex, dob, name)` with string arguments (the path
taken when a header is read from a file). -/
def EdfSubjectId.mk_str (code sex dob name : Bytes) :
    Except PyErr EdfSubjectId := do
  let sx ← EdfSubjectId.set_sex sex
  let db ← EdfSubjectId.set_dob_str dob
  .ok ⟨EdfSubjectId.set_code code, sx, db, EdfSubjectId.set_name name⟩

/-- `EdfSubjectId.to_str` without the length guard. -/
def EdfSubjectId.str_val (sid : EdfSubjectId) : Bytes :=
  let dob := match sid.dob with
    | none => ascii "X"
    | some d => fmtDOB d
  sid.code ++ [32] ++ sid.sex ++ [32] ++ dob ++ [32] ++ sid.name

/-- `EdfSubjectId.to_str`: raises `EdfHeaderException` beyond 80 bytes. -/
def EdfSubjectId.to_str (sid : EdfSubjectId) : Except PyErr Bytes :=
  if sid.str_val.length > 80 then .error .headerException else .ok sid.str_val

/-- `EdfRecordingId`: the recording identification subfields. -/
structure EdfRecordingId where
  startdate : EdfDate
  experiment_id : Bytes
  investigator_id : Bytes
  equipment_code : Bytes
  deriving DecidableEq, Repr

/-- The `startdate` setter on a string: ISO format, then `'%d-%b-%Y'`. -/
def EdfRecordingId.set_startdate_str (v : Bytes) : Except PyErr EdfDate :=
  match parseISOdate v with
  | some d => .ok d
  | none =>
    match parseDOBdate v with
    | some d => .ok d
    | none => .error .valueError

/-- The setter shared by the three id subfields: stringify, strip, `'X'`
when blank, spaces to underscores. -/
def EdfRecordingId.set_id (v : Bytes) : Bytes :=
  let v := trimBytes v
  let v := if v.isEmpty then ascii "X" else v
  replaceByte 32 95 v

/-- `EdfRecordingId(startdate, ...)` with a string start date. -/
def EdfRecordingId.mk_str (startdate experiment_id investigator_id
    equipment_code : Bytes) : Except PyErr EdfRecordingId := do
  let sd ← EdfRecordingId.set_startdate_str startdate
  .ok ⟨sd, EdfRecordingId.set_id experiment_id,
    EdfRecordingId.set_id investigator_id, EdfRecordingId.set_id equipment_code⟩

/-- `EdfRecordingId.to_str` without the length guard:
`'Startdate {date} {experiment} {investigator} {equipment}'`. -/
def EdfRecordingId.str_val (rid : EdfRecordingId) : Bytes :=
  ascii "Startdate " ++ fmtDOB rid.startdate ++ [32] ++ rid.experiment_id ++
    [32] ++ rid.investigator_id ++ [32] ++ rid.equipment_code

/-- `EdfRecordingId.to_str`: raises `EdfHeaderException` beyond 80 bytes. -/
def EdfRecordingId.to_str (rid : EdfRecordingId) : Except PyErr Bytes :=
  if rid.str_val.length > 80 then .error .headerException else .ok rid.str_val

/-- The gain computed by `EdfSignal._update_gain`:
`(physical_max - physical_min) / (digital_max - digital_min)`.  The
Python code raises `ZeroDivisionError` when the denominator is zero;
call sites model that check explicitly (in `ℚ`, `x / 0 = 0`). -/
def gainOf (pmin pmax : ℚ) (dmin dmax : ℤ) : ℚ :=
  (pmax - pmin) / ((dmax : ℚ) - (dmin : ℚ))

/-- `EdfSignal`: one per-channel descriptor.  `sampling_freq` and `gain`
are the two convenience fields that are not part of the on-disk format. -/
structure EdfSignal where
  label : Bytes
  transducer_type : Bytes
  physical_dim : Bytes
  physical_min : ℚ
  physical_max : ℚ
  digital_min : ℤ
  digital_max : ℤ
  prefiltering : Bytes
  number_of_samples_in_data_record : ℤ
  reserved : Bytes
  sampling_freq : ℚ
  gain : ℚ
  deriving DecidableEq, Repr

/-- The `label` setter: truncate to 16 bytes (with a non-fatal warning,
not modelled) and strip. -/
def EdfSignal.set_label (v : Bytes) : Bytes :=
  trimBytes (if v.length > 16 then v.take 16 else v)

/-- The `transducer_type` setter: truncate to 80 bytes and strip. -/
def EdfSignal.set_transducer_type (v : Bytes) : Bytes :=
  trimBytes (if v.length > 80 then v.take 80 else v)

/-- The `physical_dim` setter: truncate to 8 bytes and strip. -/
def EdfSignal.set_physical_dim (v : Bytes) : Bytes :=
  trimBytes (if v.length > 8 then v.take 8 else v)

/-- The `prefiltering` setter: truncate to 80 bytes and strip. -/
def EdfSignal.set_prefiltering (v : Bytes) : Bytes :=
  trimBytes (if v.length > 80 then v.take 80 else v)

/-- The `reserved` setter: strip. -/
def EdfSignal.set_reserved (v : Bytes) : Bytes := trimBytes v

/-- Byte widths of the ten signal-header fields (`EdfSignal._sizes`). -/
def edfSignalSizes : List Nat := [16, 80, 8, 8, 8, 8, 8, 80, 8, 32]

/-- Byte offsets of the field blocks inside one 256-byte signal header
(partial sums of `edfSignalSizes`). -/
def sigFieldOffsets : List Nat := [0, 16, 96, 104, 112, 120, 128, 136, 216, 224]

/-- The string written for field `i` of a signal by `EdfHeader.pack`
(the Python `'{:<n}'.format(val)` stringifies numeric fields). -/
def EdfSignal.fieldBytes (s : EdfSignal) (i : Nat) : Bytes :=
  match i with
  | 0 => s.label
  | 1 => s.transducer_type
  | 2 => s.physical_dim
  | 3 => ratToDec s.physical_min
  | 4 => ratToDec s.physical_max
  | 5 => intToDec s.digital_min
  | 6 => intToDec s.digital_max
  | 7 => s.prefiltering
  | 8 => intToDec s.number_of_samples_in_data_record
  | _ => s.reserved

/-- `EdfHeader`: the main header.  Field order mirrors
`EdfHeader._fields`. -/
structure EdfHeader where
  version : Bytes
  subject_id : EdfSubjectId
  recording_id : EdfRecordingId
  startdate : EdfDate
  starttime : EdfTime
  number_of_bytes_in_header : ℤ
  reserved : Bytes
  number_of_data_records : ℤ
  duration_of_data_record : ℚ
  number_of_signals : ℤ
  signals : List EdfSignal
  deriving DecidableEq, Repr

/-- Byte widths of the ten main-header fields (`EdfHeader._sizes`). -/
def edfHeaderSizes : List Nat := [8, 80, 80, 8, 8, 8, 44, 8, 8, 4]

/-- The `signals` setter: replacing the list recomputes
`number_of_signals` and `number_of_bytes_in_header`. -/
def EdfHeader.set_signals (h : EdfHeader) (values : List EdfSignal) : EdfHeader :=
  { h with
    number_of_signals := (values.length : ℤ)
    number_of_bytes_in_header := 256 + (values.length : ℤ) * 256
    signals := values }

/-- The `number_of_bytes_in_header` setter (a public property setter in
the Python class). -/
def EdfHeader.set_number_of_bytes_in_header (h : EdfHeader) (v : ℤ) : EdfHeader :=
  { h with number_of_bytes_in_header := v }

/-- The `number_of_data_records` setter. -/
def EdfHeader.set_number_of_data_records (h : EdfHeader) (v : ℤ) : EdfHeader :=
  { h with number_of_data_records := v }

/-- The `reserved` attribute is a plain slot: assigning stores the value
unchanged. -/
def EdfHeader.set_reserved (h : EdfHeader) (v : Bytes) : EdfHeader :=
  { h with reserved := v }

/-- The `duration_of_data_record` setter (`float(value)`). -/
def EdfHeader.set_duration_of_data_record (h : EdfHeader) (v : ℚ) : EdfHeader :=
  { h with duration_of_data_record := v }

/-! ## Packing (`EdfHeader.pack`) -/

/-- One field-major block of the signal header: field `f`, width `w`,
formatted for every signal in order. -/
def fieldBlock (w : Nat) (f : EdfSignal → Bytes) (sigs : List EdfSignal) : Bytes :=
  (sigs.map (fun s => leftJust w (f s))).flatten

/-- The signal-header bytes produced by `EdfHeader.pack`: the pack loop
iterates over `EdfSignal._fields` in the outer loop and over the signals
in the inner loop, so the block is field-major. -/
def EdfHeader.packSignals (h : EdfHeader) : Bytes :=
  fieldBlock 16 (fun s => s.label) h.signals ++
  fieldBlock 80 (fun s => s.transducer_type) h.signals ++
  fieldBlock 8 (fun s => s.physical_dim) h.signals ++
  fieldBlock 8 (fun s => ratToDec s.physical_min) h.signals ++
  fieldBlock 8 (fun s => ratToDec s.physical_max) h.signals ++
  fieldBlock 8 (fun s => intToDec s.digital_min) h.signals ++
  fieldBlock 8 (fun s => intToDec s.digital_max) h.signals ++
  fieldBlock 80 (fun s => s.prefiltering) h.signals ++
  fieldBlock 8 (fun s => intToDec s.number_of_samples_in_data_record) h.signals ++
  fieldBlock 32 (fun s => s.reserved) h.signals

/-- The width/value table of the ten signal-header fields, in
`EdfSignal._fields` order (used to reason uniformly about the
field-major block). -/
def sigBlockSpecs : List (Nat × (EdfSignal → Bytes)) :=
  [(16, fun s => s.label), (80, fun s => s.transducer_type),
   (8, fun s => s.physical_dim), (8, fun s => ratToDec s.physical_min),
   (8, fun s => ratToDec s.physical_max), (8, fun s => intToDec s.digital_min),
   (8, fun s => intToDec s.digital_max), (80, fun s => s.prefiltering),
   (8, fun s => intToDec s.number_of_samples_in_data_record),
   (32, fun s => s.reserved)]

/-- The concatenation of the field-major blocks of a spec table. -/
def blocksConcat (sigs : List EdfSignal) (specs : List (Nat × (EdfSignal → Bytes))) :
    Bytes :=
  (specs.map (fun p => fieldBlock p.1 p.2 sigs)).flatten

/-- Total width of the first `i` fields of a spec table. -/
def offSum (specs : List (Nat × (EdfSignal → Bytes))) (i : Nat) : Nat :=
  ((specs.take i).map (fun p => p.1)).sum

/-- The ten left-justified main-header fields, given the already
formatted identity strings. -/
def EdfHeader.mainBytes (h : EdfHeader) (sid rid : Bytes) : Bytes :=
  leftJust 8 h.version ++ leftJust 80 sid ++ leftJust 80 rid ++
    leftJust 8 (fmtHdrDate h.startdate) ++ leftJust 8 (fmtHdrTime h.starttime) ++
    leftJust 8 (intToDec h.number_of_bytes_in_header) ++ leftJust 44 h.reserved ++
    leftJust 8 (intToDec h.number_of_data_records) ++
    leftJust 8 (ratToDec h.duration_of_data_record) ++
    leftJust 4 (intToDec h.number_of_signals)

/-- The main (first 256) header bytes produced by `EdfHeader.pack`:
the ten fields left-justified into widths `8,80,80,8,8,8,44,8,8,4`.
Raises when either identity string exceeds 80 bytes. -/
def EdfHeader.packMain (h : EdfHeader) : Except PyErr Bytes := do
  let sid ← h.subject_id.to_str
  let rid ← h.recording_id.to_str
  .ok (h.mainBytes sid rid)

/-- `EdfHeader.pack`: main header then field-major signal header, with
the `encode('ascii')` checks and the two length assertions of the
Python code. -/
def EdfHeader.pack (h : EdfHeader) : Except PyErr Bytes := do
  let main ← h.packMain
  if (main.all (fun c => c < 128)) = false then throw PyErr.unicodeError
  if main.length ≠ 256 then throw PyErr.assertFailed
  let sig := h.packSignals
  if (sig.all (fun c => c < 128)) = false then throw PyErr.unicodeError
  if (sig.length : ℤ) ≠ h.number_of_signals * 256 then throw PyErr.assertFailed
  pure (main ++ sig)

/-! ## Unpacking (`reader.header_fromfile`) -/

/-- Field `i` of signal `n` inside the field-major signal-header block:
the Python code unpacks the block with widths `[w] * ns` per field and
takes the piece sequence `sig_str[n::ns]`; piece `n + i*ns` starts at
byte `ns * offset(i) + n * width(i)`. -/
def sigPiece (ns : Nat) (block : Bytes) (i n : Nat) : Bytes :=
  let w := edfSignalSizes.getD i 0
  (block.drop (ns * sigFieldOffsets.getD i 0 + n * w)).take w

/-- Build signal `n` from the signal-header block: a default
`EdfSignal()` mutated field by field in `EdfSignal._fields` order.
The `digital_min` assignment recomputes the gain against the default
`digital_max = 32767`, and the `digital_max` assignment against the
just-parsed `digital_min`; each raises `ZeroDivisionError` on a zero
denominator.  After the fields, `sampling_freq` is set to
`number_of_samples_in_data_record / duration` (a float division that
raises on a zero duration). -/
def unpackOneSignal (ns : Nat) (dur : ℚ) (block : Bytes) (n : Nat) :
    Except PyErr EdfSignal := do
  let label := EdfSignal.set_label (sigPiece ns block 0 n)
  let transducer := EdfSignal.set_transducer_type (sigPiece ns block 1 n)
  let physdim := EdfSignal.set_physical_dim (sigPiece ns block 2 n)
  let pmin ← match parseFloatPy (sigPiece ns block 3 n) with
    | some q => pure q
    | none => throw PyErr.valueError
  let pmax ← match parseFloatPy (sigPiece ns block 4 n) with
    | some q => pure q
    | none => throw PyErr.valueError
  let dmin ← match parseIntPy (sigPiece ns block 5 n) with
    | some z => pure z
    | none => throw PyErr.valueError
  if dmin = 32767 then throw PyErr.zeroDivisionError
  let dmax ← match parseIntPy (sigPiece ns block 6 n) with
    | some z => pure z
    | none => throw PyErr.valueError
  if dmax = dmin then throw PyErr.zeroDivisionError
  let prefilter := EdfSignal.set_prefiltering (sigPiece ns block 7 n)
  let nsamp ← match parseIntPy (sigPiece ns block 8 n) with
    | some z => pure z
    | none => throw PyErr.valueError
  let reserved := EdfSignal.set_reserved (sigPiece ns block 9 n)
  if dur = 0 then throw PyErr.zeroDivisionError
  pure ({ label := label, transducer_type := transducer, physical_dim := physdim,
          physical_min := pmin, physical_max := pmax, digital_min := dmin,
          digital_max := dmax, prefiltering := prefilter,
          number_of_samples_in_data_record := nsamp, reserved := reserved,
          sampling_freq := (nsamp : ℚ) / dur,
          gain := gainOf pmin pmax dmin dmax } : EdfSignal)

/-- The value `EdfHeader()` default construction leaves in fields that
`header_fromfile` then overwrites; only the fields it does not
overwrite matter, and it overwrites all of them, so the seed is
irrelevant — a fixed record keeps the definition executable. -/
def edfHeaderSeed : EdfHeader :=
  { version := ascii "0"
    subject_id := ⟨ascii "X", ascii "X", none, ascii "X"⟩
    recording_id := ⟨⟨2000, 1, 1⟩, ascii "X", ascii "X", ascii "X"⟩
    startdate := ⟨2000, 1, 1⟩
    starttime := ⟨0, 0, 0⟩
    number_of_bytes_in_header := 256
    reserved := []
    number_of_data_records := -1
    duration_of_data_record := 0
    number_of_signals := 0
    signals := [] }

/-- `reader.header_fromfile`, acting on the file's bytes: read and
decode the 256-byte main header, assign each field through the class
setters, then read `256 * ns` signal-header bytes, de-interleave them
field-major and build the signals, and finally assign the `signals`
property (which recomputes `number_of_signals` and
`number_of_bytes_in_header`). -/
def header_fromfile (file : Bytes) : Except PyErr EdfHeader := do
  let hdr_str := file.take 256
  if hdr_str.length < 256 then throw PyErr.structError
  if (hdr_str.all (fun c => c < 128)) = false then throw PyErr.unicodeError
  let p := splitSizes edfHeaderSizes hdr_str
  let version := p.getD 0 []
  let subj ← match splitWS (p.getD 1 []) with
    | [c, s, d, n] =>
      match EdfSubjectId.mk_str c s d n with
      | .ok sid => pure sid
      | .error _ => throw PyErr.headerException
    | _ => throw PyErr.headerException
  let rec_id ← match splitWS (p.getD 2 []) with
    | [_, sd, ex, inv, eq] =>
      match EdfRecordingId.mk_str sd ex inv eq with
      | .ok rid => pure rid
      | .error _ => throw PyErr.headerException
    | _ => throw PyErr.headerException
  let startdate ← match parseISOdate (p.getD 3 []) with
    | some d => pure d
    | none =>
      match parseHdrDate (p.getD 3 []) with
      | some d => pure d
      | none => throw PyErr.headerException
  let starttime ← match parseTimeSep 58 (p.getD 4 []) with
    | some t => pure t
    | none =>
      match parseTimeSep 46 (p.getD 4 []) with
      | some t => pure t
      | none => throw PyErr.headerException
  let nbh ← match parseIntPy (p.getD 5 []) with
    | some z => pure z
    | none => throw PyErr.valueError
  let reserved := p.getD 6 []
  let ndr ← match parseIntPy (p.getD 7 []) with
    | some z => pure z
    | none => throw PyErr.valueError
  let dur ← match parseFloatPy (p.getD 8 []) with
    | some q => pure q
    | none => throw PyErr.valueError
  let nsZ ← match parseIntPy (p.getD 9 []) with
    | some z => pure z
    | none => throw PyErr.valueError
  if nsZ < 0 then throw PyErr.valueError
  let ns := nsZ.toNat
  let sig_str := (file.drop 256).take (256 * ns)
  if sig_str.length ≠ 256 * ns then throw PyErr.structError
  if (sig_str.all (fun c => c < 128)) = false then throw PyErr.unicodeError
  let sigs ← (List.range ns).mapM (fun n => unpackOneSignal ns dur sig_str n)
  let h0 : EdfHeader :=
    { edfHeaderSeed with
      version := version, subject_id := subj, recording_id := rec_id,
      startdate := startdate, starttime := starttime,
      number_of_bytes_in_header := nbh, reserved := reserved,
      number_of_data_records := ndr, duration_of_data_record := dur,
      number_of_signals := nsZ, signals := [] }
  pure (h0.set_signals sigs)

/-! ## Digital/physical conversion (`EdfSignal.dig_to_phys`, `phys_to_dig`) -/

/-- `np.int16` applied to an integer: two's-complement wrap into
`[-32768, 32767]`. -/
def i16wrap (z : ℤ) : ℤ := (z + 32768) % 65536 - 32768

/-- `np.uint16` applied to an integer: wrap into `[0, 65535]`. -/
def u16wrap (z : ℤ) : ℤ := z % 65536

/-- The float-to-integer conversion inside a numpy cast: truncation
toward zero. -/
def ratTrunc (q : ℚ) : ℤ := if q < 0 then ⌈q⌉ else ⌊q⌋

/-- `EdfSignal.dig_to_phys`:
`offset = physical_max / gain - digital_max;
 gain * (np.int16(value) + offset)`.
(The Python float division raises `ZeroDivisionError` when `gain = 0`;
in `ℚ`, `x / 0 = 0`, so theorems assume `gain ≠ 0`.) -/
def EdfSignal.dig_to_phys (s : EdfSignal) (value : ℤ) : ℚ :=
  s.gain * ((i16wrap value : ℚ) + (s.physical_max / s.gain - (s.digital_max : ℚ)))

/-- `EdfSignal.phys_to_dig`:
`dig = (value - physical_max) / gain + digital_max; np.uint16(dig)`.
The result is the unsigned 16-bit cast of the truncated value; there is
no overflow check in the source. -/
def EdfSignal.phys_to_dig (s : EdfSignal) (value : ℚ) : ℤ :=
  u16wrap (ratTrunc ((value - s.physical_max) / s.gain + (s.digital_max : ℚ)))

/-! ## The reader (`reader.py`) -/

/-- The default-constructed `EdfSignal()` (all setters applied to the
default arguments). -/
def edfSignalDefault : EdfSignal :=
  { label := [], transducer_type := [], physical_dim := [],
    physical_min := -32768, physical_max := 32767,
    digital_min := -32768, digital_max := 32767,
    prefiltering := [], number_of_samples_in_data_record := 0, reserved := [],
    sampling_freq := 0, gain := gainOf (-32768) 32767 (-32768) 32767 }

/-- An open `EdfReader`: the parsed header and the file contents.  The
derived layout attributes computed by `__init__` are modelled as
functions of the header below. -/
structure EdfReader where
  header : EdfHeader
  file : Bytes
  deriving Repr

/-- `self._record_samples`: each signal's samples per record. -/
def EdfReader.record_samples (r : EdfReader) : List ℤ :=
  r.header.signals.map (fun s => s.number_of_samples_in_data_record)

/-- `self._record_bytes = self._record_samples * 2`. -/
def EdfReader.record_bytes (r : EdfReader) : List ℤ :=
  r.record_samples.map (fun n => n * 2)

/-- Partial sums of a list (`np.cumsum`). -/
def cumsum : List ℤ → List ℤ
  | [] => []
  | x :: xs => x :: (cumsum xs).map (fun y => x + y)

/-- `self._record_pointers = np.r_[0, np.cumsum(self._record_bytes)[:-1]]`:
byte offset of each signal inside one data record. -/
def EdfReader.record_pointers (r : EdfReader) : List ℤ :=
  0 :: (cumsum r.record_bytes).dropLast

/-- `self._bytes_in_record`: total bytes of one data record. -/
def EdfReader.bytes_in_record (r : EdfReader) : ℤ := r.record_bytes.sum

/-- `self.duration_s = number_of_data_records * duration_of_data_record`. -/
def EdfReader.duration_s (r : EdfReader) : ℚ :=
  (r.header.number_of_data_records : ℚ) * r.header.duration_of_data_record

/-- `f.seek(pos); f.read(len)`: seeking to a negative offset raises
`OSError`; a read past the end returns the available bytes. -/
def fileRead (file : Bytes) (pos len : ℤ) : Except PyErr Bytes :=
  if pos < 0 then .error .seekError
  else .ok ((file.drop pos.toNat).take len.toNat)

/-- `np.frombuffer(bytes, 'int16')`: little-endian signed 16-bit pairs.
(numpy raises on an odd-length buffer; theorems only apply this to
even-length reads.) -/
def bytesToInt16 : Bytes → List ℤ
  | lo :: hi :: rest =>
    (if lo + 256 * hi < 32768 then (lo + 256 * hi : ℤ)
     else (lo + 256 * hi : ℤ) - 65536) :: bytesToInt16 rest
  | _ => []

/-- The evenly spaced timestamps of one record of a signal:
`time = np.arange(nsamples) / sampling_freq + duration * rec_number`. -/
def recordTimes (n : Nat) (freq dur : ℚ) (rec : ℤ) : List ℚ :=
  (List.range n).map (fun i => (i : ℚ) / freq + dur * (rec : ℚ))

/-- `EdfReader.read_signal_from_record`: check `sig_number` against both
ends and `rec_number` against the upper end only, seek to the signal's
sub-offset, read, decode int16, convert with `dig_to_phys`, and build
the timestamps. -/
def EdfReader.read_signal_from_record (r : EdfReader) (sig_number rec_number : ℤ) :
    Except PyErr (List ℚ × List ℚ) := do
  if sig_number ≥ r.header.number_of_signals then throw PyErr.valueError
  if sig_number < 0 then throw PyErr.valueError
  if rec_number ≥ r.header.number_of_data_records then throw PyErr.valueError
  let ptr := r.header.number_of_bytes_in_header +
    r.bytes_in_record * rec_number + r.record_pointers.getD sig_number.toNat 0
  let raw ← fileRead r.file ptr (r.record_bytes.getD sig_number.toNat 0)
  let s := r.header.signals.getD sig_number.toNat edfSignalDefault
  let samples := (bytesToInt16 raw).map (fun v => s.dig_to_phys v)
  let time := recordTimes s.number_of_samples_in_data_record.toNat
    s.sampling_freq r.header.duration_of_data_record rec_number
  pure (time, samples)

/-- `range(a, b)` over integers. -/
def intRange (a b : ℤ) : List ℤ :=
  (List.range (b - a).toNat).map (fun i => a + (i : ℤ))

/-- The multi-record loop of `read_signal`: read each record in order
and concatenate times and samples (the Python deques). -/
def EdfReader.readRecordsLoop (r : EdfReader) (sig : ℤ) :
    List ℤ → Except PyErr (List ℚ × List ℚ)
  | [] => .ok ([], [])
  | rec :: rest => do
    let xy ← r.read_signal_from_record sig rec
    let rest' ← r.readRecordsLoop sig rest
    .ok (xy.1 ++ rest'.1, xy.2 ++ rest'.2)

/-- `EdfReader.read_signal` for an integer signal argument (the label
branch resolves a label to an index and is not needed by the claims):
clamp `to_second` to the recording duration, compute the record range
`[floor(from/dur), ceil(to/dur))`, delegate to a single record read when
the two endpoints coincide, else loop, and finally keep exactly the
samples with `from_second <= t < to_second` (the numpy boolean mask,
modelled as a filter of the zipped pair list). -/
def EdfReader.read_signal (r : EdfReader) (signal : ℤ)
    (from_second to_second : ℚ) : Except PyErr (List ℚ × List ℚ) := do
  let to_second := if to_second > r.duration_s then r.duration_s else to_second
  let rec_from : ℤ := ⌊from_second / r.header.duration_of_data_record⌋
  let rec_to : ℤ := ⌈to_second / r.header.duration_of_data_record⌉
  let ts ←
    if rec_from = rec_to then r.read_signal_from_record signal rec_from
    else r.readRecordsLoop signal (intRange rec_from rec_to)
  let pairs := (ts.1.zip ts.2).filter
    (fun p => decide (from_second ≤ p.1) && decide (p.1 < to_second))
  pure (pairs.map Prod.fst, pairs.map Prod.snd)

/-! ## The writer (`writer.py`) -/

/-- An open `EdfWriter`: file contents, write cursor, header, and the
`closed` flag. -/
structure EdfWriter where
  header : EdfHeader
  file : Bytes
  pos : Nat
  closed : Bool
  deriving Repr

/-- `f.seek(pos); f.write(data)`: overwrite in place, extending the file
(zero-filled) when the position is past the end. -/
def fileWrite (f : Bytes) (pos : Nat) (data : Bytes) : Bytes :=
  let f2 := if f.length < pos then f ++ List.replicate (pos - f.length) 0 else f
  f2.take pos ++ data ++ f2.drop (pos + data.length)

/-- `EdfWriter.write_header`: pack, remember the cursor, write at the
start of the file, and restore the cursor only when it was beyond
`number_of_bytes_in_header` (otherwise it stays at the end of the
written header). -/
def EdfWriter.write_header (w : EdfWriter) : Except PyErr EdfWriter := do
  let hdr ← w.header.pack
  let pointer := w.pos
  let file := fileWrite w.file 0 hdr
  let pos := if (pointer : ℤ) > w.header.number_of_bytes_in_header
    then pointer else hdr.length
  pure { w with file := file, pos := pos }

/-- `EdfWriter.update_number_of_records`: save the cursor, write
`'{:<8}'.format(number_of_data_records)` at offset 236, seek back. -/
def EdfWriter.update_number_of_records (w : EdfWriter) : EdfWriter :=
  let nr := leftJust 8 (intToDec w.header.number_of_data_records)
  { w with file := fileWrite w.file 236 nr }

/-- `EdfWriter.write_data_record`: append the buffer at the cursor
(no size validation), increment `number_of_data_records`, then patch the
counter field in place. -/
def EdfWriter.write_data_record (w : EdfWriter) (buffer : Bytes) : EdfWriter :=
  let w := { w with
    file := fileWrite w.file w.pos buffer
    pos := w.pos + buffer.length
    header := w.header.set_number_of_data_records
      (w.header.number_of_data_records + 1) }
  w.update_number_of_records

/-- `EdfWriter.close`: patch the counter once more, flush (a no-op on
the byte model) and close the handle. -/
def EdfWriter.close (w : EdfWriter) : EdfWriter :=
  let w := w.update_number_of_records
  { w with closed := true }

/-- `EdfWriter.__init__`: open an empty file, set
`duration_of_data_record` and reset the record counter, recompute every
signal's `number_of_samples_in_data_record = int(sampling_freq *
saving_period_s)`, and write the header. -/
def EdfWriter.init (header : EdfHeader) (saving_period_s : ℚ) :
    Except PyErr EdfWriter := do
  let header := header.set_duration_of_data_record saving_period_s
  let header := header.set_number_of_data_records 0
  let header := { header with signals := header.signals.map (fun s =>
    { s with number_of_samples_in_data_record :=
        ratTrunc (s.sampling_freq * saving_period_s) }) }
  EdfWriter.write_header { header := header, file := [], pos := 0, closed := false }

/-- `k` successive `write_data_record` calls. -/
def EdfWriter.writeAll (w : EdfWriter) (bufs : List Bytes) : EdfWriter :=
  bufs.foldl EdfWriter.write_data_record w

/-! ## Validity predicates and field-wise comparison

The `...Ok` Booleans collect the class invariants established by the
Python setters together with the "fits its fixed-width slot" conditions
the claims assume of a valid header. -/

def asciiOnly (bs : Bytes) : Bool := bs.all (fun c => c < 128)

/-- A whitespace-free, non-empty ASCII token (the shape of the subject
and recording id subfields after their setters ran). -/
def tokenOk (bs : Bytes) : Bool :=
  !bs.isEmpty && bs.all (fun c => c < 128 && !isSpaceByte c)

/-- Fits a width-`w` slot and is pure ASCII. -/
def strFits (w : Nat) (bs : Bytes) : Bool := bs.length ≤ w && asciiOnly bs

/-- Fits, ASCII, and stable under `strip` (the shape the descriptor
string setters store). -/
def strippedFits (w : Nat) (bs : Bytes) : Bool :=
  strFits w bs && trimBytes bs == bs

/-- A valid date that `strftime('%d-%b-%Y')` renders with a four-digit
year. -/
def dateOk (d : EdfDate) : Bool :=
  validDate d.year d.month d.day && 1000 ≤ d.year && d.year ≤ 9999

def timeOk (t : EdfTime) : Bool :=
  t.hour < 24 && t.minute < 60 && t.second < 60

/-- The value has a finite decimal expansion and its rendering fits a
width-`w` slot. -/
def decimalOk (w : Nat) (q : ℚ) : Bool :=
  decide (q.den ∣ 10 ^ 64) && (ratToDec q).length ≤ w

def intFits (w : Nat) (z : ℤ) : Bool := (intToDec z).length ≤ w

def subjectOk (sid : EdfSubjectId) : Bool :=
  tokenOk sid.code &&
  (sid.sex == ascii "M" || sid.sex == ascii "F" || sid.sex == ascii "X") &&
  (match sid.dob with | none => true | some d => dateOk d) &&
  tokenOk sid.name && sid.str_val.length ≤ 80

def recordingOk (rid : EdfRecordingId) : Bool :=
  dateOk rid.startdate && tokenOk rid.experiment_id &&
  tokenOk rid.investigator_id && tokenOk rid.equipment_code &&
  rid.str_val.length ≤ 80

/-- A valid signal descriptor: every field as its setter stores it and
fitting its slot; `digital_min ≠ 32767` and `digital_min ≠ digital_max`
keep the two gain recomputations performed while unpacking away from
`ZeroDivisionError`. -/
def signalOk (s : EdfSignal) : Bool :=
  strippedFits 16 s.label && strippedFits 80 s.transducer_type &&
  strippedFits 8 s.physical_dim && strippedFits 80 s.prefiltering &&
  strippedFits 32 s.reserved &&
  decimalOk 8 s.physical_min && decimalOk 8 s.physical_max &&
  intFits 8 s.digital_min && intFits 8 s.digital_max &&
  (s.digital_min != s.digital_max) && (s.digital_min != 32767) &&
  intFits 8 s.number_of_samples_in_data_record

/-- A valid header: all slots fit, the derived count fields are
consistent, the start date lies in the two-digit-year pivot window
(the `'%d.%m.%y'` format preserves no more than that), and the record
duration is non-zero (unpacking divides by it). -/
def headerOk (h : EdfHeader) : Bool :=
  strFits 8 h.version && subjectOk h.subject_id && recordingOk h.recording_id &&
  dateOk h.startdate && 1969 ≤ h.startdate.year && h.startdate.year ≤ 2068 &&
  timeOk h.starttime &&
  (h.number_of_bytes_in_header == 256 + (h.signals.length : ℤ) * 256) &&
  intFits 8 h.number_of_bytes_in_header &&
  strFits 44 h.reserved && intFits 8 h.number_of_data_records &&
  decimalOk 8 h.duration_of_data_record && (h.duration_of_data_record != 0) &&
  (h.number_of_signals == (h.signals.length : ℤ)) &&
  intFits 4 h.number_of_signals &&
  h.signals.all signalOk

/-- Field-by-field equality of the ten EDF descriptor fields. -/
def SigMatch (s t : EdfSignal) : Prop :=
  t.label = s.label ∧ t.transducer_type = s.transducer_type ∧
  t.physical_dim = s.physical_dim ∧ t.physical_min = s.physical_min ∧
  t.physical_max = s.physical_max ∧ t.digital_min = s.digital_min ∧
  t.digital_max = s.digital_max ∧ t.prefiltering = s.prefiltering ∧
  t.number_of_samples_in_data_record = s.number_of_samples_in_data_record ∧
  t.reserved = s.reserved

/-- Field-by-field equality after ASCII trim between a header and its
unpacked round trip: the raw string slots (`version`, `reserved`) agree
after `strip`, every structured field agrees exactly, and the signal
lists agree descriptor field by descriptor field. -/
def HeaderMatch (h h2 : EdfHeader) : Prop :=
  trimBytes h2.version = trimBytes h.version ∧
  h2.subject_id = h.subject_id ∧
  h2.recording_id = h.recording_id ∧
  h2.startdate = h.startdate ∧
  h2.starttime = h.starttime ∧
  h2.number_of_bytes_in_header = h.number_of_bytes_in_header ∧
  trimBytes h2.reserved = trimBytes h.reserved ∧
  h2.number_of_data_records = h.number_of_data_records ∧
  h2.duration_of_data_record = h.duration_of_data_record ∧
  h2.number_of_signals = h.number_of_signals ∧
  List.Forall₂ SigMatch h.signals h2.signals

/-! ## Concrete instances for witnesses and counterexamples -/

/-- A voltage-like signal descriptor with unit gain. -/
def sigW : EdfSignal :=
  { label := ascii "ADC", transducer_type := ascii "thermistor",
    physical_dim := ascii "uV", physical_min := -10, physical_max := 10,
    digital_min := -32768, digital_max := 32767,
    prefiltering := ascii "HP:0.1Hz",
    number_of_samples_in_data_record := 10, reserved := [],
    sampling_freq := 10, gain := gainOf (-10) 10 (-32768) 32767 }

/-- A second descriptor, to exercise the two-signal layout. -/
def sigW2 : EdfSignal :=
  { label := ascii "Temp", transducer_type := [],
    physical_dim := ascii "degC", physical_min := 0, physical_max := 50,
    digital_min := 0, digital_max := 4095, prefiltering := [],
    number_of_samples_in_data_record := 5, reserved := [],
    sampling_freq := 5, gain := gainOf 0 50 0 4095 }

/-- A one-signal header satisfying `headerOk`. -/
def hdrW : EdfHeader :=
  { version := ascii "0"
    subject_id := ⟨ascii "P01", ascii "M", some ⟨1999, 12, 30⟩, ascii "Doe_J"⟩
    recording_id := ⟨⟨2020, 8, 2⟩, ascii "E1", ascii "I1", ascii "EQ"⟩
    startdate := ⟨2020, 8, 2⟩
    starttime := ⟨12, 5, 9⟩
    number_of_bytes_in_header := 512
    reserved := []
    number_of_data_records := 3
    duration_of_data_record := 1
    number_of_signals := 1
    signals := [sigW] }

/-- A two-signal header (for the field-major layout claim). -/
def hdrW2 : EdfHeader :=
  { hdrW with
    number_of_bytes_in_header := 256 + 2 * 256
    number_of_signals := 2
    signals := [sigW, sigW2] }

/-- A minimal zero-signal header (for the writer claims). -/
def hdrM : EdfHeader :=
  { version := ascii "0"
    subject_id := ⟨ascii "X", ascii "X", none, ascii "X"⟩
    recording_id := ⟨⟨2020, 1, 2⟩, ascii "X", ascii "X", ascii "X"⟩
    startdate := ⟨2020, 1, 2⟩
    starttime := ⟨0, 0, 0⟩
    number_of_bytes_in_header := 256
    reserved := []
    number_of_data_records := -1
    duration_of_data_record := 1
    number_of_signals := 0
    signals := [] }

/-- The writer state after `EdfWriter(hdrM, 1)` (total fallback for the
`Except`; the witness proofs evaluate the `.ok` branch). -/
def wM : EdfWriter :=
  match EdfWriter.init hdrM 1 with
  | .ok w => w
  | .error _ => { header := hdrM, file := [], pos := 0, closed := false }

/-- A signal whose conversion has unit gain and zero offset:
`dig_to_phys` is the int16 identity. -/
def sigR : EdfSignal :=
  { label := ascii "S0", transducer_type := [], physical_dim := [],
    physical_min := -32768, physical_max := 32767,
    digital_min := -32768, digital_max := 32767, prefiltering := [],
    number_of_samples_in_data_record := 10, reserved := [],
    sampling_freq := 10, gain := 1 }

/-- Header of the synthetic 3-record, 1-second, 10 Hz file. -/
def hdrR : EdfHeader :=
  { hdrW with
    number_of_data_records := 3
    duration_of_data_record := 1
    signals := [sigR] }

/-- The synthetic data region: records 0..2, samples numbered 0..29,
little-endian int16. -/
def dataR : Bytes :=
  ((List.range 30).map (fun i => [i, 0])).flatten

/-- The synthetic open reader: 512 header bytes (their content is
irrelevant to the data-region reads) followed by the 3 records. -/
def rdR : EdfReader :=
  { header := hdrR, file := List.replicate 512 48 ++ dataR }

/-- A descriptor whose digital range fills the full unsigned 16-bit
span — `digital_min ≠ digital_max` and `gain` derived, as the gain
invariant claim requires — but exceeding the signed 16-bit range. -/
def sigX : EdfSignal :=
  { label := [], transducer_type := [], physical_dim := [],
    physical_min := 0, physical_max := 65535,
    digital_min := 0, digital_max := 65535, prefiltering := [],
    number_of_samples_in_data_record := 1, reserved := [],
    sampling_freq := 1, gain := gainOf 0 65535 0 65535 }

/-! ## Lemmas: stripping, padding, digit strings -/

theorem dropWhile_replicate_space (k : Nat) (x : Bytes) :
    (List.replicate k 32 ++ x).dropWhile isSpaceByte = x.dropWhile isSpaceByte := by
  induction k with
  | zero => simp
  | succ k ih => simpa [List.replicate_succ, List.dropWhile] using ih

theorem trim_append_replicate (bs : Bytes) (k : Nat) :
    trimBytes (bs ++ List.replicate k 32) = trimBytes bs := by
  unfold trimBytes
  rw [List.reverse_append, List.reverse_replicate, dropWhile_replicate_space]

theorem trim_leftJust (w : Nat) (bs : Bytes) :
    trimBytes (leftJust w bs) = trimBytes bs :=
  trim_append_replicate bs _

theorem dropWhile_eq_self_of_all {p : Nat → Bool} {l : Bytes}
    (h : ∀ c ∈ l, p c = false) : l.dropWhile p = l := by
  cases l with
  | nil => rfl
  | cons c cs =>
    have : p c = false := h c (List.mem_cons_self c cs)
    simp [List.dropWhile, this]

theorem trim_of_noWS {bs : Bytes} (h : ∀ c ∈ bs, isSpaceByte c = false) :
    trimBytes bs = bs := by
  unfold trimBytes
  rw [dropWhile_eq_self_of_all (fun c hc => h c (List.mem_reverse.mp hc)),
    List.reverse_reverse, dropWhile_eq_self_of_all h]

theorem leftJust_length {w : Nat} {bs : Bytes} (h : bs.length ≤ w) :
    (leftJust w bs).length = w := by
  simp [leftJust]
  omega

theorem leftJust_of_length_eq {w : Nat} {bs : Bytes} (h : bs.length = w) :
    leftJust w bs = bs := by
  simp [leftJust, h]

theorem digits10_eq_digits : ∀ fuel n, n ≤ fuel → digits10 fuel n = Nat.digits 10 n := by
  intro fuel
  induction fuel with
  | zero =>
    intro n hn
    have h0 : n = 0 := by omega
    subst h0
    simp [digits10]
  | succ fuel ih =>
    intro n hn
    cases n with
    | zero => simp [digits10]
    | succ m =>
      rw [digits10, ih ((m + 1) / 10) (by omega),
        Nat.digits_def' (by norm_num : (1 : Nat) < 10) (Nat.succ_pos m)]

theorem natToDec_eq_digits (n : Nat) :
    natToDec n =
      if n = 0 then [48] else ((Nat.digits 10 n).map (fun d => 48 + d)).reverse := by
  unfold natToDec
  rw [digits10_eq_digits n n le_rfl]

theorem natToDec_ne_nil (n : Nat) : natToDec n ≠ [] := by
  rw [natToDec_eq_digits]
  split
  · simp
  · intro h
    rw [List.reverse_eq_nil_iff, List.map_eq_nil_iff, Nat.digits_eq_nil_iff_eq_zero] at h
    omega

theorem natToDec_all_digits {n : Nat} : ∀ c ∈ natToDec n, isDigitByte c = true := by
  intro c hc
  rw [natToDec_eq_digits] at hc
  split at hc
  · simp at hc
    simp [hc, isDigitByte]
  · rw [List.mem_reverse, List.mem_map] at hc
    obtain ⟨d, hd, rfl⟩ := hc
    have : d < 10 := Nat.digits_lt_base (by norm_num) hd
    simp [isDigitByte]
    omega

theorem digit_not_space {c : Nat} (h : isDigitByte c = true) :
    isSpaceByte c = false := by
  simp [isDigitByte] at h
  simp [isSpaceByte]
  omega

theorem decToNat_natToDec (n : Nat) : decToNat (natToDec n) = n := by
  rw [natToDec_eq_digits]
  unfold decToNat
  split
  · simp [Nat.ofDigits]
    omega
  · rw [List.map_reverse, List.reverse_reverse, List.map_map]
    have : ((fun c => c - 48) ∘ fun d => 48 + d) = fun d : Nat => d := by
      funext d; simp
    rw [this]
    simpa using Nat.ofDigits_digits 10 n

theorem parseNat_natToDec (n : Nat) : parseNat (natToDec n) = some n := by
  unfold parseNat
  rw [if_neg (by simpa [List.isEmpty_iff] using natToDec_ne_nil n),
    if_pos (by simpa [List.all_eq_true] using @natToDec_all_digits n),
    decToNat_natToDec]

theorem trim_natToDec (n : Nat) : trimBytes (natToDec n) = natToDec n :=
  trim_of_noWS (fun c hc => digit_not_space (natToDec_all_digits c hc))

theorem natToDec_head_digit (n : Nat) :
    ∃ c cs, natToDec n = c :: cs ∧ isDigitByte c = true := by
  obtain ⟨c, cs, h⟩ := List.exists_cons_of_ne_nil (natToDec_ne_nil n)
  exact ⟨c, cs, h, natToDec_all_digits c (h ▸ List.mem_cons_self c cs)⟩

theorem parseIntPy_intToDec (z : Int) : parseIntPy (intToDec z) = some z := by
  obtain ⟨c, cs, hcons, hdig⟩ := natToDec_head_digit z.natAbs
  have hc48 : 48 ≤ c ∧ c ≤ 57 := by simpa [isDigitByte] using hdig
  unfold parseIntPy intToDec
  split
  case isTrue hneg =>
    have htrim : trimBytes (45 :: natToDec z.natAbs) = 45 :: natToDec z.natAbs := by
      refine trim_of_noWS ?_
      intro x hx
      rcases List.mem_cons.mp hx with rfl | hx
      · decide
      · exact digit_not_space (natToDec_all_digits x hx)
    rw [htrim]
    simp only [List.headD, List.tail]
    norm_num
    rw [parseNat_natToDec]
    have : (z.natAbs : ℤ) = -z := by
      rcases Int.natAbs_eq z with h | h
      · omega
      · omega
    simp [this]
  case isFalse hpos =>
    rw [trim_natToDec, hcons]
    simp only [List.headD]
    rw [if_neg (by omega), if_neg (by omega), ← hcons, parseNat_natToDec]
    have : (z.natAbs : ℤ) = z := by
      rcases Int.natAbs_eq z with h | h
      · omega
      · omega
    simp [this]

/-! ## Lemmas: digit-string arithmetic and separators -/

theorem decToNat_append (a b : Bytes) :
    decToNat (a ++ b) = decToNat a * 10 ^ b.length + decToNat b := by
  unfold decToNat
  rw [List.map_append, List.reverse_append, Nat.ofDigits_append]
  simp [Nat.add_comm, Nat.mul_comm]

theorem decToNat_replicate_zero (k : Nat) (b : Bytes) :
    decToNat (List.replicate k 48 ++ b) = decToNat b := by
  rw [decToNat_append]
  have : decToNat (List.replicate k 48) = 0 := by
    unfold decToNat
    have : (List.replicate k 48 : Bytes).map (fun c => c - 48) =
        List.replicate k 0 := by
      simp [List.map_replicate]
    rw [this, List.reverse_replicate]
    induction k with
    | zero => simp [Nat.ofDigits]
    | succ k ih => simpa [List.replicate_succ, Nat.ofDigits_cons] using ih
  simp [this]

theorem splitOnByte_not_mem {sep : Nat} {a : Bytes} (h : sep ∉ a) :
    splitOnByte sep a = [a] := by
  induction a with
  | nil => rfl
  | cons c cs ih =>
    have hc : c ≠ sep := fun hh => h (hh ▸ List.mem_cons_self c cs)
    have ihc := ih (fun hh => h (List.mem_cons_of_mem c hh))
    simp [splitOnByte, hc, ihc]

theorem splitOnByte_append {sep : Nat} {a : Bytes} (r : Bytes) (h : sep ∉ a) :
    splitOnByte sep (a ++ sep :: r) = a :: splitOnByte sep r := by
  induction a with
  | nil => simp [splitOnByte]
  | cons c cs ih =>
    have hc : c ≠ sep := fun hh => h (hh ▸ List.mem_cons_self c cs)
    have ihc := ih (fun hh => h (List.mem_cons_of_mem c hh))
    simp only [List.cons_append, splitOnByte, if_neg hc, List.append_eq, ihc]

theorem splitOnByte_pair {sep : Nat} {a b : Bytes} (ha : sep ∉ a) (hb : sep ∉ b) :
    splitOnByte sep (a ++ sep :: b) = [a, b] := by
  rw [splitOnByte_append b ha, splitOnByte_not_mem hb]

theorem splitOnByte_triple {sep : Nat} {a b c : Bytes}
    (ha : sep ∉ a) (hb : sep ∉ b) (hc : sep ∉ c) :
    splitOnByte sep (a ++ sep :: (b ++ sep :: c)) = [a, b, c] := by
  rw [splitOnByte_append _ ha, splitOnByte_pair hb hc]

theorem decExp_dvd {d : Nat} (h : d ∣ 10 ^ 64) : d ∣ 10 ^ decExp d := by
  unfold decExp
  cases hfind : (List.range 65).find? (fun k => decide (d ∣ 10 ^ k)) with
  | some k =>
    have := List.find?_some hfind
    simpa using this
  | none =>
    exfalso
    have h64 : (64 : Nat) ∈ List.range 65 := by decide
    have := List.find?_eq_none.mp hfind 64 h64
    simp at this
    exact this h

/-! ## Lemmas: the float round trip -/

theorem digit_ne {c v : Nat} (h : isDigitByte c = true) (hv : v < 48) : c ≠ v := by
  simp [isDigitByte] at h
  omega

theorem ratDigitStr_digits {q : ℚ} : ∀ c ∈ ratDigitStr q, isDigitByte c = true := by
  intro c hc
  unfold ratDigitStr at hc
  split at hc
  · rcases List.mem_append.mp hc with hrep | hds
    · have := List.eq_of_mem_replicate hrep
      simp [this, isDigitByte]
    · exact natToDec_all_digits c hds
  · exact natToDec_all_digits c hc

theorem ratDigitStr_len {q : ℚ} : decExp q.den < (ratDigitStr q).length := by
  unfold ratDigitStr
  split
  case isTrue hle =>
    simp [List.length_append, List.length_replicate]
    omega
  case isFalse hlt =>
    omega

theorem ratDigitStr_val (q : ℚ) : decToNat (ratDigitStr q) = ratMant q := by
  unfold ratDigitStr
  split
  · rw [decToNat_replicate_zero, decToNat_natToDec]
  · rw [decToNat_natToDec]

theorem parseUFloat_body (ip fp : Bytes) (hip : ip ≠ [])
    (hipd : ∀ c ∈ ip, isDigitByte c = true) (hfpd : ∀ c ∈ fp, isDigitByte c = true) :
    parseUFloat (ip ++ 46 :: fp) =
      some ((decToNat ip : ℚ) + (decToNat fp : ℚ) / (10 : ℚ) ^ fp.length) := by
  unfold parseUFloat
  have h46ip : (46 : Nat) ∉ ip := fun hm => digit_ne (hipd 46 hm) (by norm_num) rfl
  have h46fp : (46 : Nat) ∉ fp := fun hm => digit_ne (hfpd 46 hm) (by norm_num) rfl
  rw [splitOnByte_pair h46ip h46fp]
  have h1 : ip.isEmpty = false := by simpa [List.isEmpty_iff] using hip
  have h2 : ip.all isDigitByte = true := by simpa [List.all_eq_true] using hipd
  have h3 : fp.all isDigitByte = true := by simpa [List.all_eq_true] using hfpd
  simp [h1, h2, h3]

/-- The unsigned body of `ratToDec q` parses back to `ratMant q / 10^e`. -/
theorem parseUFloat_ratBody (q : ℚ) :
    parseUFloat ((ratDigitStr q).take ((ratDigitStr q).length - decExp q.den) ++
        46 :: (if decExp q.den = 0 then [48]
               else (ratDigitStr q).drop ((ratDigitStr q).length - decExp q.den))) =
      some ((ratMant q : ℚ) / (10 : ℚ) ^ decExp q.den) := by
  set e := decExp q.den with he
  set ds := ratDigitStr q with hds
  have hlen : e < ds.length := ratDigitStr_len
  have hdsd : ∀ c ∈ ds, isDigitByte c = true := ratDigitStr_digits
  have hipd : ∀ c ∈ ds.take (ds.length - e), isDigitByte c = true :=
    fun c hc => hdsd c (List.mem_of_mem_take hc)
  have hfpd : ∀ c ∈ ds.drop (ds.length - e), isDigitByte c = true :=
    fun c hc => hdsd c (List.mem_of_mem_drop hc)
  have hiplen : (ds.take (ds.length - e)).length = ds.length - e := by
    rw [List.length_take]
    omega
  have hipne : ds.take (ds.length - e) ≠ [] := by
    intro hnil
    rw [hnil] at hiplen
    simp at hiplen
    omega
  by_cases h0 : e = 0
  · rw [if_pos h0]
    rw [parseUFloat_body _ _ hipne hipd (by intro c hc; simp at hc; simp [hc, isDigitByte])]
    have : ds.take (ds.length - e) = ds := by
      rw [h0]
      simp
    rw [this, ratDigitStr_val]
    have h48 : decToNat [48] = 0 := by simp [decToNat, Nat.ofDigits]
    rw [h48, h0]
    norm_num
  · rw [if_neg h0]
    rw [parseUFloat_body _ _ hipne hipd hfpd]
    have hfplen : (ds.drop (ds.length - e)).length = e := by
      simp
      omega
    have hsplit : decToNat (ds.take (ds.length - e)) * 10 ^ e +
        decToNat (ds.drop (ds.length - e)) = ratMant q := by
      have := decToNat_append (ds.take (ds.length - e)) (ds.drop (ds.length - e))
      rw [List.take_append_drop, hfplen] at this
      rw [← this, ratDigitStr_val]
    have h10 : ((10 : ℚ) ^ e) ≠ 0 := by positivity
    rw [hfplen]
    congr 1
    have hcast : ((ratMant q : ℚ)) =
        (decToNat (ds.take (ds.length - e)) : ℚ) * (10 : ℚ) ^ e +
          (decToNat (ds.drop (ds.length - e)) : ℚ) := by
      exact_mod_cast hsplit.symm
    field_simp
    linarith

theorem isSpace_of_digit_or_46 {c : Nat} (h : isDigitByte c = true ∨ c = 46) :
    isSpaceByte c = false := by
  rcases h with h | rfl
  · exact digit_not_space h
  · decide

theorem parseFloatPy_of_trim_cons45 {bs body : Bytes}
    (h : trimBytes bs = 45 :: body) :
    parseFloatPy bs = (parseUFloat body).map (fun x => -x) := by
  simp only [parseFloatPy, h, List.headD_cons, List.tail_cons]
  norm_num

theorem parseFloatPy_of_head {bs : Bytes}
    (h43 : (trimBytes bs).headD 0 ≠ 43) (h45 : (trimBytes bs).headD 0 ≠ 45) :
    parseFloatPy bs = parseUFloat (trimBytes bs) := by
  simp only [parseFloatPy, if_neg h43, if_neg h45]

/-- `float(str(q)) = q` for every rational with a finite decimal
expansion: the embedded model of CPython's float-repr round trip. -/
theorem parseFloat_ratToDec {q : ℚ} (h : q.den ∣ 10 ^ 64) :
    parseFloatPy (ratToDec q) = some q := by
  have hden : q.den ∣ 10 ^ decExp q.den := decExp_dvd h
  have hm : ratMant q * q.den = q.num.natAbs * 10 ^ decExp q.den :=
    Nat.div_mul_cancel (Dvd.dvd.mul_left hden q.num.natAbs)
  have hden0 : ((q.den : ℚ)) ≠ 0 := by
    exact_mod_cast q.den_nz
  have h10 : ((10 : ℚ) ^ decExp q.den) ≠ 0 := by positivity
  have hmq : ((ratMant q : ℚ)) * q.den = (q.num.natAbs : ℚ) * (10 : ℚ) ^ decExp q.den := by
    exact_mod_cast hm
  have hqq : ((q.num : ℚ)) / (q.den : ℚ) = q := Rat.num_div_den q
  have hqden : ((q.num : ℚ)) = q * q.den := (div_eq_iff hden0).mp hqq
  set e := decExp q.den with he
  set ds := ratDigitStr q with hds
  set body := ds.take (ds.length - e) ++
    46 :: (if e = 0 then [48] else ds.drop (ds.length - e)) with hbody
  have hval : parseUFloat body = some ((ratMant q : ℚ) / (10 : ℚ) ^ e) :=
    parseUFloat_ratBody q
  have hbodyd : ∀ c ∈ body, isDigitByte c = true ∨ c = 46 := by
    intro c hc
    rw [hbody] at hc
    rcases List.mem_append.mp hc with hip | hrest
    · exact Or.inl (ratDigitStr_digits c (List.mem_of_mem_take hip))
    · rcases List.mem_cons.mp hrest with rfl | hfp
      · exact Or.inr rfl
      · split at hfp
        · simp at hfp
          simp [hfp, isDigitByte]
        · exact Or.inl (ratDigitStr_digits c (List.mem_of_mem_drop hfp))
  have htrim : trimBytes body = body :=
    trim_of_noWS (fun c hc => isSpace_of_digit_or_46 (hbodyd c hc))
  have hiplen : (ds.take (ds.length - e)).length = ds.length - e := by
    rw [List.length_take]
    omega
  have hlen : e < ds.length := ratDigitStr_len
  obtain ⟨c0, cs0, hcons⟩ : ∃ c0 cs0, ds.take (ds.length - e) = c0 :: cs0 := by
    apply List.exists_cons_of_ne_nil
    intro hnil
    rw [hnil] at hiplen
    simp at hiplen
    omega
  have hc0d : isDigitByte c0 = true :=
    ratDigitStr_digits c0 (List.mem_of_mem_take (hcons ▸ List.mem_cons_self c0 cs0))
  have h48 : 48 ≤ c0 ∧ c0 ≤ 57 := by simpa [isDigitByte] using hc0d
  have hbody_cons : body = c0 :: (cs0 ++
      46 :: (if e = 0 then [48] else ds.drop (ds.length - e))) := by
    rw [hbody, hcons]
    simp
  by_cases hneg : q.num < 0
  · -- negative value: '-' then the body
    have hform : ratToDec q = 45 :: body := by
      rw [ratToDec, if_pos hneg]
      simp [hbody, ← he, ← hds]
    have hmz : (ratMant q : ℤ) * (q.den : ℤ) = (q.num.natAbs : ℤ) * 10 ^ e := by
      exact_mod_cast hm
    have hnumz : (q.num.natAbs : ℤ) = -q.num := by omega
    have hmq2 : ((ratMant q : ℚ)) * q.den = -(q.num : ℚ) * (10 : ℚ) ^ e := by
      rw [hnumz] at hmz
      exact_mod_cast hmz
    have hmqv : ((ratMant q : ℚ)) = -q * 10 ^ e := by
      apply mul_right_cancel₀ hden0
      rw [hmq2, hqden]
      ring
    have ht : trimBytes (45 :: body) = 45 :: body := by
      refine trim_of_noWS ?_
      intro x hx
      rcases List.mem_cons.mp hx with rfl | hx
      · decide
      · exact isSpace_of_digit_or_46 (hbodyd x hx)
    have hv : ((-q * (10 : ℚ) ^ e) / (10 : ℚ) ^ e) = -q := by field_simp
    rw [hform, parseFloatPy_of_trim_cons45 ht, hval, hmqv, hv]
    simp
  · -- non-negative value: the body alone
    have hform : ratToDec q = body := by
      rw [ratToDec, if_neg hneg]
      simp [hbody, ← he, ← hds]
    have hmz : (ratMant q : ℤ) * (q.den : ℤ) = (q.num.natAbs : ℤ) * 10 ^ e := by
      exact_mod_cast hm
    have hnumz : (q.num.natAbs : ℤ) = q.num := by omega
    have hmq2 : ((ratMant q : ℚ)) * q.den = (q.num : ℚ) * (10 : ℚ) ^ e := by
      rw [hnumz] at hmz
      exact_mod_cast hmz
    have hmqv : ((ratMant q : ℚ)) = q * 10 ^ e := by
      apply mul_right_cancel₀ hden0
      rw [hmq2, hqden]
      ring
    have hhead : (trimBytes (ratToDec q)).headD 0 = c0 := by
      rw [hform, htrim, hbody_cons, List.headD_cons]
    rw [parseFloatPy_of_head (by rw [hhead]; omega) (by rw [hhead]; omega),
      hform, htrim, hval, hmqv]
    congr 1
    field_simp

/-! ## Lemmas: dates, times, month names -/

theorem natToDec_length_le {n k : Nat} (hk : 1 ≤ k) (h : n < 10 ^ k) :
    (natToDec n).length ≤ k := by
  rw [natToDec_eq_digits]
  split
  · simpa using hk
  case isFalse hn =>
    rw [List.length_reverse, List.length_map,
      Nat.digits_len 10 n (by norm_num) hn]
    have := Nat.log_lt_of_lt_pow hn h
    omega

theorem pad2_length {n : Nat} (h : n < 100) : (pad2 n).length = 2 := by
  unfold pad2
  split
  · rfl
  case isFalse h10 =>
    have hn : n ≠ 0 := by omega
    rw [natToDec_eq_digits]
    rw [if_neg hn, List.length_reverse, List.length_map,
      Nat.digits_len 10 n (by norm_num) hn,
      @Nat.log_eq_of_pow_le_of_lt_pow 10 1 n (by simpa using h10) (by simpa using h)]

theorem pad2_digits {n : Nat} (h : n < 100) :
    ∀ c ∈ pad2 n, isDigitByte c = true := by
  intro c hc
  unfold pad2 at hc
  split at hc
  · rcases List.mem_cons.mp hc with rfl | hc
    · decide
    · simp at hc
      simp [hc, isDigitByte]
      omega
  · exact natToDec_all_digits c hc

theorem parseNat_pad2 {n : Nat} (h : n < 100) : parseNat (pad2 n) = some n := by
  unfold pad2
  split
  case isTrue h10 =>
    unfold parseNat
    rw [if_neg (by simp), if_pos]
    · unfold decToNat
      simp [Nat.ofDigits]
    · simp [isDigitByte]
      omega
  · exact parseNat_natToDec n

theorem month_facts : ∀ m, 1 ≤ m → m ≤ 12 →
    monthFromAbbrev (monthAbbrev m) = some m ∧ (monthAbbrev m).length = 3 ∧
    (monthAbbrev m).all (fun c => c < 128 && !isSpaceByte c && !isDigitByte c &&
      c ≠ 45 && c ≠ 46 && c ≠ 58) = true := by
  intro m h1 h2
  interval_cases m <;> exact ⟨by decide, by decide, by decide⟩

theorem daysInMonth_le (y m : Nat) : daysInMonth y m ≤ 31 := by
  unfold daysInMonth
  split
  · split <;> omega
  · split <;> omega

theorem pivotYear_mod {y : Nat} (h1 : 1969 ≤ y) (h2 : y ≤ 2068) :
    pivotYear (y % 100) = y := by
  unfold pivotYear
  split <;> omega

theorem fmtHdrDate_shape (dt : EdfDate) :
    fmtHdrDate dt = pad2 dt.day ++ 46 :: (pad2 dt.month ++ 46 :: pad2 (dt.year % 100)) := by
  simp [fmtHdrDate]

theorem fmtHdrTime_shape (t : EdfTime) :
    fmtHdrTime t = pad2 t.hour ++ 46 :: (pad2 t.minute ++ 46 :: pad2 t.second) := by
  simp [fmtHdrTime]

theorem fmtDOB_shape (dt : EdfDate) :
    fmtDOB dt = pad2 dt.day ++ 45 :: (monthAbbrev dt.month ++ 45 :: natToDec dt.year) := by
  simp [fmtDOB]

theorem pad2_not_mem {n v : Nat} (h : n < 100) (hv : v < 48) : v ∉ pad2 n := by
  intro hm
  exact digit_ne (pad2_digits h v hm) hv rfl

theorem pad2_ne_58 {n : Nat} (h : n < 100) : (58 : Nat) ∉ pad2 n := by
  intro hm
  have := pad2_digits h 58 hm
  simp [isDigitByte] at this

theorem natToDec_not_mem {n v : Nat} (hv : v < 48) : v ∉ natToDec n := by
  intro hm
  exact digit_ne (natToDec_all_digits v hm) hv rfl

theorem parseHdrDate_fmt {dt : EdfDate} (hv : validDate dt.year dt.month dt.day = true)
    (h1 : 1969 ≤ dt.year) (h2 : dt.year ≤ 2068) :
    parseHdrDate (fmtHdrDate dt) = some dt := by
  have hvv := hv
  simp only [validDate, Bool.and_eq_true, decide_eq_true_eq] at hvv
  have hday : dt.day < 100 := by
    have := daysInMonth_le dt.year dt.month
    omega
  have hmon : dt.month < 100 := by omega
  have hy2 : dt.year % 100 < 100 := Nat.mod_lt _ (by norm_num)
  unfold parseHdrDate
  rw [fmtHdrDate_shape,
    splitOnByte_triple (pad2_not_mem hday (by norm_num))
      (pad2_not_mem hmon (by norm_num)) (pad2_not_mem hy2 (by norm_num))]
  simp only [parseNat_pad2 hday, parseNat_pad2 hmon, parseNat_pad2 hy2,
    Option.bind_eq_bind, Option.some_bind]
  rw [if_pos]
  · rw [pivotYear_mod h1 h2]
  · simp only [pad2_length hday, pad2_length hmon, pad2_length hy2,
      pivotYear_mod h1 h2, hv]
    simp
    omega

theorem parseISOdate_fmtHdrDate {dt : EdfDate} (hv : validDate dt.year dt.month dt.day = true) :
    parseISOdate (fmtHdrDate dt) = none := by
  have hday : dt.day < 100 := by
    have h1 := daysInMonth_le dt.year dt.month
    simp only [validDate, Bool.and_eq_true, decide_eq_true_eq] at hv
    omega
  have hmon : dt.month < 100 := by
    simp only [validDate, Bool.and_eq_true, decide_eq_true_eq] at hv
    omega
  have h45 : (45 : Nat) ∉ fmtHdrDate dt := by
    rw [fmtHdrDate_shape]
    intro hm
    rcases List.mem_append.mp hm with hm | hm
    · exact pad2_not_mem hday (by norm_num) hm
    · rcases List.mem_cons.mp hm with h46 | hm
      · omega
      · rcases List.mem_append.mp hm with hm | hm
        · exact pad2_not_mem hmon (by norm_num) hm
        · rcases List.mem_cons.mp hm with h46 | hm
          · omega
          · exact pad2_not_mem (Nat.mod_lt _ (by norm_num)) (by norm_num) hm
  unfold parseISOdate
  rw [splitOnByte_not_mem h45]

theorem parseTimeSep58_fmtHdrTime (t : EdfTime) (hok : timeOk t = true) :
    parseTimeSep 58 (fmtHdrTime t) = none := by
  simp only [timeOk, Bool.and_eq_true, decide_eq_true_eq] at hok
  have h58 : (58 : Nat) ∉ fmtHdrTime t := by
    rw [fmtHdrTime_shape]
    intro hm
    rcases List.mem_append.mp hm with hm | hm
    · exact pad2_ne_58 (by omega) hm
    · rcases List.mem_cons.mp hm with h46 | hm
      · omega
      · rcases List.mem_append.mp hm with hm | hm
        · exact pad2_ne_58 (by omega) hm
        · rcases List.mem_cons.mp hm with h46 | hm
          · omega
          · exact pad2_ne_58 (by omega) hm
  unfold parseTimeSep
  rw [splitOnByte_not_mem h58]

theorem parseTimeSep46_fmtHdrTime (t : EdfTime) (hok : timeOk t = true) :
    parseTimeSep 46 (fmtHdrTime t) = some t := by
  simp only [timeOk, Bool.and_eq_true, decide_eq_true_eq] at hok
  unfold parseTimeSep
  rw [fmtHdrTime_shape,
    splitOnByte_triple (pad2_not_mem (by omega) (by norm_num))
      (pad2_not_mem (by omega) (by norm_num)) (pad2_not_mem (by omega) (by norm_num))]
  simp only [parseNat_pad2 (show t.hour < 100 by omega),
    parseNat_pad2 (show t.minute < 100 by omega),
    parseNat_pad2 (show t.second < 100 by omega),
    Option.bind_eq_bind, Option.some_bind]
  rw [if_pos]
  · simp only [pad2_length (show t.hour < 100 by omega),
      pad2_length (show t.minute < 100 by omega),
      pad2_length (show t.second < 100 by omega)]
    simp
    omega

theorem dateOk_fields {dt : EdfDate} (h : dateOk dt = true) :
    validDate dt.year dt.month dt.day = true ∧ 1000 ≤ dt.year ∧ dt.year ≤ 9999 ∧
    1 ≤ dt.month ∧ dt.month ≤ 12 ∧ 1 ≤ dt.day ∧ dt.day < 100 := by
  simp only [dateOk, Bool.and_eq_true, decide_eq_true_eq] at h
  obtain ⟨⟨hv, h1⟩, h2⟩ := h
  have hvv := hv
  simp only [validDate, Bool.and_eq_true, decide_eq_true_eq] at hvv
  have := daysInMonth_le dt.year dt.month
  exact ⟨hv, h1, h2, by omega, by omega, by omega, by omega⟩

theorem month_not_mem_45 {m : Nat} (h1 : 1 ≤ m) (h2 : m ≤ 12) :
    (45 : Nat) ∉ monthAbbrev m := by
  intro hm
  have := (month_facts m h1 h2).2.2
  rw [List.all_eq_true] at this
  have := this 45 hm
  simp at this

theorem parseDOBdate_fmt {dt : EdfDate} (h : dateOk dt = true) :
    parseDOBdate (fmtDOB dt) = some dt := by
  obtain ⟨hv, hy1, hy2, hm1, hm2, hd1, hd2⟩ := dateOk_fields h
  unfold parseDOBdate
  rw [fmtDOB_shape,
    splitOnByte_triple (pad2_not_mem hd2 (by norm_num))
      (month_not_mem_45 hm1 hm2) (natToDec_not_mem (by norm_num))]
  simp only [parseNat_pad2 hd2, (month_facts dt.month hm1 hm2).1,
    parseNat_natToDec, Option.bind_eq_bind, Option.some_bind]
  rw [if_pos]
  · rw [pad2_length hd2, Bool.and_eq_true, Bool.and_eq_true]
    refine ⟨⟨by simp, ?_⟩, hv⟩
    have : (natToDec dt.year).length ≤ 4 :=
      natToDec_length_le (by norm_num) (by omega)
    simp
    omega

theorem monthAbbrev_not_all_digits {m : Nat} (h1 : 1 ≤ m) (h2 : m ≤ 12) :
    (monthAbbrev m).all isDigitByte = false := by
  have h3 := (month_facts m h1 h2).2.1
  have hfacts := (month_facts m h1 h2).2.2
  rw [List.all_eq_true] at hfacts
  obtain ⟨c, cs, hcons⟩ : ∃ c cs, monthAbbrev m = c :: cs := by
    apply List.exists_cons_of_ne_nil
    intro hnil
    rw [hnil] at h3
    simp at h3
  have := hfacts c (hcons ▸ List.mem_cons_self c cs)
  simp only [Bool.and_eq_true] at this
  rw [List.all_eq_false]
  refine ⟨c, hcons ▸ List.mem_cons_self c cs, ?_⟩
  have hnd : (!isDigitByte c) = true := this.1.1.1.2
  simpa using hnd

theorem parseISOdate_fmtDOB {dt : EdfDate} (h : dateOk dt = true) :
    parseISOdate (fmtDOB dt) = none := by
  obtain ⟨hv, hy1, hy2, hm1, hm2, hd1, hd2⟩ := dateOk_fields h
  unfold parseISOdate
  rw [fmtDOB_shape,
    splitOnByte_triple (pad2_not_mem hd2 (by norm_num))
      (month_not_mem_45 hm1 hm2) (natToDec_not_mem (by norm_num))]
  have : parseNat (monthAbbrev dt.month) = none := by
    unfold parseNat
    rw [if_neg, if_neg]
    · simp [monthAbbrev_not_all_digits hm1 hm2]
    · have h3 := (month_facts dt.month hm1 hm2).2.1
      intro hempty
      rw [List.isEmpty_iff] at hempty
      rw [hempty] at h3
      simp at h3
  simp [parseNat_pad2 hd2, this]

/-! ## Lemmas: whitespace splitting and the identity setters -/

theorem takeWhile_all {p : Nat → Bool} {l : Bytes} (h : ∀ c ∈ l, p c = true) :
    l.takeWhile p = l := by
  induction l with
  | nil => rfl
  | cons c cs ih =>
    rw [List.takeWhile_cons, if_pos (h c (List.mem_cons_self c cs))]
    rw [ih (fun x hx => h x (List.mem_cons_of_mem c hx))]

theorem dropWhile_all {p : Nat → Bool} {l : Bytes} (h : ∀ c ∈ l, p c = true) :
    l.dropWhile p = [] := by
  induction l with
  | nil => rfl
  | cons c cs ih =>
    rw [List.dropWhile_cons, if_pos (h c (List.mem_cons_self c cs))]
    exact ih (fun x hx => h x (List.mem_cons_of_mem c hx))

theorem takeWhile_word {w rest : Bytes} (hw : ∀ c ∈ w, isSpaceByte c = false) :
    (w ++ 32 :: rest).takeWhile (fun x => !isSpaceByte x) = w := by
  induction w with
  | nil => simp [List.takeWhile_cons, isSpaceByte]
  | cons c cs ih =>
    rw [List.cons_append, List.takeWhile_cons,
      if_pos (by simp [hw c (List.mem_cons_self c cs)]),
      ih (fun x hx => hw x (List.mem_cons_of_mem c hx))]

theorem dropWhile_word {w rest : Bytes} (hw : ∀ c ∈ w, isSpaceByte c = false) :
    (w ++ 32 :: rest).dropWhile (fun x => !isSpaceByte x) = 32 :: rest := by
  induction w with
  | nil => simp [List.dropWhile_cons, isSpaceByte]
  | cons c cs ih =>
    rw [List.cons_append, List.dropWhile_cons,
      if_pos (by simp [hw c (List.mem_cons_self c cs)])]
    exact ih (fun x hx => hw x (List.mem_cons_of_mem c hx))

theorem splitWS_cons_space (rest : Bytes) : splitWS (32 :: rest) = splitWS rest := by
  rw [splitWS, if_pos (by decide)]

theorem splitWS_word_cons {w rest : Bytes} (hne : w ≠ [])
    (hw : ∀ c ∈ w, isSpaceByte c = false) :
    splitWS (w ++ 32 :: rest) = w :: splitWS rest := by
  obtain ⟨c, cs, rfl⟩ := List.exists_cons_of_ne_nil hne
  rw [List.cons_append, splitWS,
    if_neg (by simp [hw c (List.mem_cons_self c cs)]),
    takeWhile_word (fun x hx => hw x (List.mem_cons_of_mem c hx)),
    dropWhile_word (fun x hx => hw x (List.mem_cons_of_mem c hx)),
    splitWS_cons_space]

theorem splitWS_replicate_space (k : Nat) : splitWS (List.replicate k 32) = [] := by
  induction k with
  | zero => simp [splitWS]
  | succ k ih => rw [List.replicate_succ, splitWS_cons_space, ih]

theorem splitWS_word_only {w : Bytes} (hne : w ≠ [])
    (hw : ∀ c ∈ w, isSpaceByte c = false) : splitWS w = [w] := by
  obtain ⟨c, cs, rfl⟩ := List.exists_cons_of_ne_nil hne
  rw [splitWS, if_neg (by simp [hw c (List.mem_cons_self c cs)]),
    takeWhile_all (by intro x hx; simp [hw x (List.mem_cons_of_mem c hx)]),
    dropWhile_all (by intro x hx; simp [hw x (List.mem_cons_of_mem c hx)])]
  simp [splitWS]

theorem splitWS_word_pad {w : Bytes} (k : Nat) (hne : w ≠ [])
    (hw : ∀ c ∈ w, isSpaceByte c = false) :
    splitWS (w ++ List.replicate k 32) = [w] := by
  cases k with
  | zero => simpa using splitWS_word_only hne hw
  | succ k =>
    rw [List.replicate_succ, splitWS_word_cons hne hw, splitWS_replicate_space]

theorem tokenOk_parts {bs : Bytes} (h : tokenOk bs = true) :
    bs ≠ [] ∧ (∀ c ∈ bs, isSpaceByte c = false) ∧ (∀ c ∈ bs, c < 128) := by
  simp only [tokenOk, Bool.and_eq_true, List.all_eq_true, Bool.not_eq_eq_eq_not,
    Bool.not_true, decide_eq_true_eq] at h
  obtain ⟨hne, hall⟩ := h
  refine ⟨by simpa [List.isEmpty_iff] using hne, ?_, ?_⟩
  · intro c hc
    exact ((by simpa using hall c hc : c < 128 ∧ isSpaceByte c = false)).2
  · intro c hc
    exact ((by simpa using hall c hc : c < 128 ∧ isSpaceByte c = false)).1

theorem replaceByte_id {bs : Bytes} (h : ∀ c ∈ bs, c ≠ 32) :
    replaceByte 32 95 bs = bs := by
  unfold replaceByte
  have : List.map (fun c => if c = 32 then 95 else c) bs = List.map id bs :=
    List.map_congr_left (fun c hc => by simp [h c hc])
  rw [this, List.map_id]

theorem token_no_32 {bs : Bytes} (h : ∀ c ∈ bs, isSpaceByte c = false) :
    ∀ c ∈ bs, c ≠ 32 := by
  intro c hc heq
  have := h c hc
  rw [heq] at this
  simp [isSpaceByte] at this

theorem set_code_token {bs : Bytes} (h : tokenOk bs = true) :
    EdfSubjectId.set_code bs = bs := by
  obtain ⟨hne, hws, _⟩ := tokenOk_parts h
  simp only [EdfSubjectId.set_code]
  rw [trim_of_noWS hws, if_neg (by simpa [List.isEmpty_iff] using hne)]
  exact replaceByte_id (token_no_32 hws)

theorem set_name_token {bs : Bytes} (h : tokenOk bs = true) :
    EdfSubjectId.set_name bs = bs := by
  obtain ⟨hne, hws, _⟩ := tokenOk_parts h
  simp only [EdfSubjectId.set_name]
  rw [trim_of_noWS hws, if_neg (by simpa [List.isEmpty_iff] using hne)]
  exact replaceByte_id (token_no_32 hws)

theorem set_id_token {bs : Bytes} (h : tokenOk bs = true) :
    EdfRecordingId.set_id bs = bs := by
  obtain ⟨hne, hws, _⟩ := tokenOk_parts h
  simp only [EdfRecordingId.set_id]
  rw [trim_of_noWS hws, if_neg (by simpa [List.isEmpty_iff] using hne)]
  exact replaceByte_id (token_no_32 hws)

theorem set_sex_mfx {bs : Bytes}
    (h : bs = ascii "M" ∨ bs = ascii "F" ∨ bs = ascii "X") :
    EdfSubjectId.set_sex bs = .ok bs := by
  rcases h with rfl | rfl | rfl <;> rfl

theorem fmtDOB_length {dt : EdfDate} (h : dateOk dt = true) :
    (fmtDOB dt).length = 7 + (natToDec dt.year).length := by
  obtain ⟨hv, hy1, hy2, hm1, hm2, hd1, hd2⟩ := dateOk_fields h
  rw [fmtDOB_shape]
  simp only [List.length_append, List.length_cons, pad2_length hd2,
    (month_facts dt.month hm1 hm2).2.1]
  omega

theorem fmtDOB_ne_X {dt : EdfDate} (h : dateOk dt = true) :
    fmtDOB dt ≠ ascii "X" := by
  intro heq
  have h1 := fmtDOB_length h
  rw [heq] at h1
  have : (natToDec dt.year) ≠ [] := natToDec_ne_nil dt.year
  have : (natToDec dt.year).length ≥ 1 := by
    cases hc : natToDec dt.year with
    | nil => exact absurd hc this
    | cons a l => simp
  simp [ascii] at h1
  omega

theorem fmtDOB_ne_nil {dt : EdfDate} (h : dateOk dt = true) :
    (fmtDOB dt).isEmpty = false := by
  rw [Bool.eq_false_iff]
  intro hemp
  rw [List.isEmpty_iff] at hemp
  have heq := hemp
  have h1 := fmtDOB_length h
  rw [heq] at h1
  simp at h1
  have : (natToDec dt.year) ≠ [] := natToDec_ne_nil dt.year
  have hl : 0 < (natToDec dt.year).length := List.length_pos.mpr this
  omega

theorem set_dob_some {dt : EdfDate} (h : dateOk dt = true) :
    EdfSubjectId.set_dob_str (fmtDOB dt) = .ok (some dt) := by
  unfold EdfSubjectId.set_dob_str
  rw [if_neg (by simp [fmtDOB_ne_nil h, fmtDOB_ne_X h]),
    parseISOdate_fmtDOB h, parseDOBdate_fmt h]

theorem set_dob_X : EdfSubjectId.set_dob_str (ascii "X") = .ok none := by
  rfl

theorem set_startdate_fmtDOB {dt : EdfDate} (h : dateOk dt = true) :
    EdfRecordingId.set_startdate_str (fmtDOB dt) = .ok dt := by
  unfold EdfRecordingId.set_startdate_str
  rw [parseISOdate_fmtDOB h, parseDOBdate_fmt h]

/-- The dob token written by `to_str` is whitespace-free. -/
theorem fmtDOB_no_ws {dt : EdfDate} (h : dateOk dt = true) :
    ∀ c ∈ fmtDOB dt, isSpaceByte c = false := by
  obtain ⟨hv, hy1, hy2, hm1, hm2, hd1, hd2⟩ := dateOk_fields h
  have hmf := (month_facts dt.month hm1 hm2).2.2
  rw [List.all_eq_true] at hmf
  intro c hc
  rw [fmtDOB_shape] at hc
  rcases List.mem_append.mp hc with hc | hc
  · exact digit_not_space (pad2_digits hd2 c hc)
  · rcases List.mem_cons.mp hc with rfl | hc
    · decide
    · rcases List.mem_append.mp hc with hc | hc
      · have := hmf c hc
        simp only [Bool.and_eq_true] at this
        simpa using this.1.1.1.1.2
      · rcases List.mem_cons.mp hc with rfl | hc
        · decide
        · exact digit_not_space (natToDec_all_digits c hc)

theorem fmtDOB_ne_nil' {dt : EdfDate} (h : dateOk dt = true) : fmtDOB dt ≠ [] := by
  have hh := fmtDOB_ne_nil h
  intro heq
  rw [heq] at hh
  simp at hh

/-- The dob token of a valid subject id, as a plain list with its
whitespace facts (either `'X'` or the formatted date). -/
theorem dob_token_facts {dob : Option EdfDate}
    (h : (match dob with | none => true | some d => dateOk d) = true) :
    (match dob with | none => ascii "X" | some d => fmtDOB d) ≠ [] ∧
    (∀ c ∈ (match dob with | none => ascii "X" | some d => fmtDOB d),
      isSpaceByte c = false) := by
  cases dob with
  | none => exact ⟨by decide, by decide⟩
  | some d => exact ⟨fmtDOB_ne_nil' h, fmtDOB_no_ws h⟩

/-! ## Lemmas: the identity strings round trip through the header -/

theorem subjectOk_parts {sid : EdfSubjectId} (h : subjectOk sid = true) :
    tokenOk sid.code = true ∧
    (sid.sex = ascii "M" ∨ sid.sex = ascii "F" ∨ sid.sex = ascii "X") ∧
    (match sid.dob with | none => true | some d => dateOk d) = true ∧
    tokenOk sid.name = true ∧ sid.str_val.length ≤ 80 := by
  simp only [subjectOk, Bool.and_eq_true, Bool.or_eq_true, decide_eq_true_eq,
    beq_iff_eq] at h
  obtain ⟨⟨⟨⟨hc, hs⟩, hd⟩, hn⟩, hl⟩ := h
  exact ⟨hc, or_assoc.mp hs, hd, hn, hl⟩

theorem sex_token_facts {sex : Bytes}
    (h : sex = ascii "M" ∨ sex = ascii "F" ∨ sex = ascii "X") :
    sex ≠ [] ∧ (∀ c ∈ sex, isSpaceByte c = false) := by
  rcases h with rfl | rfl | rfl <;> exact ⟨by decide, by decide⟩

/-- The subject identification string splits back into its four tokens. -/
theorem splitWS_subject {sid : EdfSubjectId} (h : subjectOk sid = true) (k : Nat) :
    splitWS (sid.str_val ++ List.replicate k 32) =
      [sid.code, sid.sex,
       (match sid.dob with | none => ascii "X" | some d => fmtDOB d),
       sid.name] := by
  obtain ⟨hc, hs, hd, hn, _⟩ := subjectOk_parts h
  obtain ⟨hcne, hcws, _⟩ := tokenOk_parts hc
  obtain ⟨hsne, hsws⟩ := sex_token_facts hs
  obtain ⟨hdne, hdws⟩ := @dob_token_facts sid.dob hd
  obtain ⟨hnne, hnws, _⟩ := tokenOk_parts hn
  have hshape : sid.str_val ++ List.replicate k 32 =
      sid.code ++ 32 :: (sid.sex ++ 32 ::
        ((match sid.dob with | none => ascii "X" | some d => fmtDOB d) ++ 32 ::
          (sid.name ++ List.replicate k 32))) := by
    simp only [EdfSubjectId.str_val, List.append_assoc,
      List.singleton_append, List.cons_append, List.nil_append]
  rw [hshape, splitWS_word_cons hcne hcws, splitWS_word_cons hsne hsws,
    splitWS_word_cons hdne hdws, splitWS_word_pad k hnne hnws]

/-- Reconstructing the subject id from its four tokens gives it back. -/
theorem mk_str_subject {sid : EdfSubjectId} (h : subjectOk sid = true) :
    EdfSubjectId.mk_str sid.code sid.sex
      (match sid.dob with | none => ascii "X" | some d => fmtDOB d) sid.name =
      .ok sid := by
  obtain ⟨hc, hs, hd, hn, _⟩ := subjectOk_parts h
  unfold EdfSubjectId.mk_str
  rw [set_sex_mfx hs]
  have hdob : EdfSubjectId.set_dob_str
      (match sid.dob with | none => ascii "X" | some d => fmtDOB d) =
      .ok sid.dob := by
    cases hdd : sid.dob with
    | none => exact set_dob_X
    | some d =>
      rw [hdd] at hd
      exact set_dob_some (by simpa using hd)
  rw [hdob]
  simp only [set_code_token hc, set_name_token hn]
  rfl

theorem recordingOk_parts {rid : EdfRecordingId} (h : recordingOk rid = true) :
    dateOk rid.startdate = true ∧ tokenOk rid.experiment_id = true ∧
    tokenOk rid.investigator_id = true ∧ tokenOk rid.equipment_code = true ∧
    rid.str_val.length ≤ 80 := by
  simp only [recordingOk, Bool.and_eq_true, decide_eq_true_eq] at h
  obtain ⟨⟨⟨⟨hd, he⟩, hi⟩, hq⟩, hl⟩ := h
  exact ⟨hd, he, hi, hq, hl⟩

/-- The recording identification string splits back into its five
tokens (`'Startdate'` first). -/
theorem splitWS_recording {rid : EdfRecordingId} (h : recordingOk rid = true)
    (k : Nat) :
    splitWS (rid.str_val ++ List.replicate k 32) =
      [ascii "Startdate", fmtDOB rid.startdate, rid.experiment_id,
       rid.investigator_id, rid.equipment_code] := by
  obtain ⟨hd, he, hi, hq, _⟩ := recordingOk_parts h
  obtain ⟨hene, hews, _⟩ := tokenOk_parts he
  obtain ⟨hine, hiws, _⟩ := tokenOk_parts hi
  obtain ⟨hqne, hqws, _⟩ := tokenOk_parts hq
  have hshape : rid.str_val ++ List.replicate k 32 =
      ascii "Startdate" ++ 32 :: (fmtDOB rid.startdate ++ 32 ::
        (rid.experiment_id ++ 32 :: (rid.investigator_id ++ 32 ::
          (rid.equipment_code ++ List.replicate k 32)))) := by
    simp only [EdfRecordingId.str_val, List.append_assoc, List.singleton_append,
      List.cons_append]
    rfl
  rw [hshape, splitWS_word_cons (by decide) (by decide),
    splitWS_word_cons (fmtDOB_ne_nil' hd) (fmtDOB_no_ws hd),
    splitWS_word_cons hene hews, splitWS_word_cons hine hiws,
    splitWS_word_pad k hqne hqws]

/-- Reconstructing the recording id from its tokens gives it back. -/
theorem mk_str_recording {rid : EdfRecordingId} (h : recordingOk rid = true) :
    EdfRecordingId.mk_str (fmtDOB rid.startdate) rid.experiment_id
      rid.investigator_id rid.equipment_code = .ok rid := by
  obtain ⟨hd, he, hi, hq, _⟩ := recordingOk_parts h
  unfold EdfRecordingId.mk_str
  rw [set_startdate_fmtDOB hd]
  simp only [set_id_token he, set_id_token hi, set_id_token hq]
  rfl

/-! ## Lemmas: fixed-width slicing of the packed header -/

theorem splitSizes_cons {w : Nat} {ws : List Nat} {b rest : Bytes}
    (h : b.length = w) :
    splitSizes (w :: ws) (b ++ rest) = b :: splitSizes ws rest := by
  rw [splitSizes, ← h, List.take_left, List.drop_left]

theorem fieldBlock_length {w : Nat} {f : EdfSignal → Bytes} {sigs : List EdfSignal}
    (h : ∀ s ∈ sigs, (f s).length ≤ w) :
    (fieldBlock w f sigs).length = sigs.length * w := by
  unfold fieldBlock
  induction sigs with
  | nil => simp
  | cons s ss ih =>
    simp only [List.map_cons, List.flatten_cons, List.length_append,
      List.length_cons]
    rw [leftJust_length (h s (List.mem_cons_self s ss)),
      ih (fun x hx => h x (List.mem_cons_of_mem s hx))]
    ring

/-- Extracting the `n`-th width-`w` slice of a field block yields that
signal's padded field. -/
theorem fieldBlock_extract {w : Nat} {f : EdfSignal → Bytes}
    {sigs : List EdfSignal} (rest : Bytes) (n : Nat)
    (h : ∀ s ∈ sigs, (f s).length ≤ w) (hn : n < sigs.length) :
    (((fieldBlock w f sigs ++ rest).drop (n * w)).take w) =
      leftJust w (f (sigs.getD n edfSignalDefault)) := by
  induction sigs generalizing n rest with
  | nil => simp at hn
  | cons s ss ih =>
    have hs : (leftJust w (f s)).length = w :=
      leftJust_length (h s (List.mem_cons_self s ss))
    cases n with
    | zero =>
      have hshape : fieldBlock w f (s :: ss) ++ rest =
          leftJust w (f s) ++ (fieldBlock w f ss ++ rest) := by
        simp [fieldBlock]
      rw [hshape, Nat.zero_mul, List.drop_zero]
      have ht := List.take_left (leftJust w (f s)) (fieldBlock w f ss ++ rest)
      rw [hs] at ht
      rw [ht]
      simp
    | succ n =>
      have hshape : fieldBlock w f (s :: ss) ++ rest =
          leftJust w (f s) ++ (fieldBlock w f ss ++ rest) := by
        simp [fieldBlock]
      rw [hshape]
      have : (n + 1) * w = (leftJust w (f s)).length + n * w := by
        rw [hs]
        ring
      rw [this, List.drop_append]
      simp only [List.getD_cons_succ]
      exact ih rest n (fun x hx => h x (List.mem_cons_of_mem s hx)) (by
        simpa using hn)

/-! ## Lemmas: unpacking a packed signal block -/

theorem strippedFits_parts {w : Nat} {bs : Bytes} (h : strippedFits w bs = true) :
    bs.length ≤ w ∧ trimBytes bs = bs ∧ ∀ c ∈ bs, c < 128 := by
  simp only [strippedFits, strFits, asciiOnly, Bool.and_eq_true, decide_eq_true_eq,
    List.all_eq_true, beq_iff_eq] at h
  exact ⟨h.1.1, h.2, fun c hc => by simpa using h.1.2 c hc⟩

theorem signalOk_parts {s : EdfSignal} (h : signalOk s = true) :
    strippedFits 16 s.label = true ∧ strippedFits 80 s.transducer_type = true ∧
    strippedFits 8 s.physical_dim = true ∧ strippedFits 80 s.prefiltering = true ∧
    strippedFits 32 s.reserved = true ∧
    decimalOk 8 s.physical_min = true ∧ decimalOk 8 s.physical_max = true ∧
    intFits 8 s.digital_min = true ∧ intFits 8 s.digital_max = true ∧
    s.digital_min ≠ s.digital_max ∧ s.digital_min ≠ 32767 ∧
    intFits 8 s.number_of_samples_in_data_record = true := by
  simp only [signalOk, Bool.and_eq_true, bne_iff_ne, ne_eq] at h
  obtain ⟨⟨⟨⟨⟨⟨⟨⟨⟨⟨⟨h1, h2⟩, h3⟩, h4⟩, h5⟩, h6⟩, h7⟩, h8⟩, h9⟩, h10⟩, h11⟩, h12⟩ := h
  exact ⟨h1, h2, h3, h4, h5, h6, h7, h8, h9, h10, h11, h12⟩

theorem decimalOk_parts {w : Nat} {q : ℚ} (h : decimalOk w q = true) :
    q.den ∣ 10 ^ 64 ∧ (ratToDec q).length ≤ w := by
  simp only [decimalOk, Bool.and_eq_true, decide_eq_true_eq] at h
  exact h

theorem intFits_le {w : Nat} {z : ℤ} (h : intFits w z = true) :
    (intToDec z).length ≤ w := by
  simpa [intFits] using h

/-- All ten formatted fields of a valid signal fit their widths. -/
theorem signalOk_specFits {s : EdfSignal} (h : signalOk s = true) :
    ∀ p ∈ sigBlockSpecs, (p.2 s).length ≤ p.1 := by
  obtain ⟨h1, h2, h3, h4, h5, h6, h7, h8, h9, _, _, h12⟩ := signalOk_parts h
  intro p hp
  fin_cases hp
  · exact (strippedFits_parts h1).1
  · exact (strippedFits_parts h2).1
  · exact (strippedFits_parts h3).1
  · exact (decimalOk_parts h6).2
  · exact (decimalOk_parts h7).2
  · exact intFits_le h8
  · exact intFits_le h9
  · exact (strippedFits_parts h4).1
  · exact intFits_le h12
  · exact (strippedFits_parts h5).1

theorem blocksConcat_cons (sigs : List EdfSignal) (p : Nat × (EdfSignal → Bytes))
    (ps : List (Nat × (EdfSignal → Bytes))) :
    blocksConcat sigs (p :: ps) = fieldBlock p.1 p.2 sigs ++ blocksConcat sigs ps := by
  simp [blocksConcat]

/-- Extracting field `i` of signal `n` from the concatenated field-major
blocks. -/
theorem blocksConcat_extract (sigs : List EdfSignal) :
    ∀ (specs : List (Nat × (EdfSignal → Bytes))) (i n : Nat), i < specs.length →
    (∀ p ∈ specs, ∀ s ∈ sigs, (p.2 s).length ≤ p.1) → n < sigs.length →
    (((blocksConcat sigs specs).drop
        (sigs.length * offSum specs i + n * (specs.getD i (0, fun _ => [])).1)).take
      (specs.getD i (0, fun _ => [])).1) =
      leftJust (specs.getD i (0, fun _ => [])).1
        ((specs.getD i (0, fun _ => [])).2 (sigs.getD n edfSignalDefault)) := by
  intro specs
  induction specs with
  | nil =>
    intro i n hi
    simp at hi
  | cons p ps ih =>
    intro i n hi hfits hn
    cases i with
    | zero =>
      rw [blocksConcat_cons]
      simp only [offSum, List.take_zero, List.map_nil, List.sum_nil, Nat.mul_zero,
        Nat.zero_add, List.getD_cons_zero]
      exact fieldBlock_extract _ n (hfits p (List.mem_cons_self p ps)) hn
    | succ i =>
      rw [blocksConcat_cons]
      have hoff : offSum (p :: ps) (i + 1) = p.1 + offSum ps i := by
        simp [offSum]
      have hlen : (fieldBlock p.1 p.2 sigs).length = sigs.length * p.1 :=
        fieldBlock_length (hfits p (List.mem_cons_self p ps))
      have harith : sigs.length * offSum (p :: ps) (i + 1) +
          n * ((p :: ps).getD (i + 1) (0, fun _ => [])).1 =
          (fieldBlock p.1 p.2 sigs).length +
            (sigs.length * offSum ps i + n * (ps.getD i (0, fun _ => [])).1) := by
        rw [hoff, hlen, List.getD_cons_succ]
        ring
      rw [harith, List.drop_append, List.getD_cons_succ]
      exact ih i n (by simpa using hi)
        (fun x hx => hfits x (List.mem_cons_of_mem p hx)) hn

theorem packSignals_eq_blocksConcat (h : EdfHeader) :
    h.packSignals = blocksConcat h.signals sigBlockSpecs := by
  simp [EdfHeader.packSignals, blocksConcat, sigBlockSpecs, fieldBlock,
    List.append_assoc]

/-- Each `sigPiece` of a packed signal block is the padded field of the
corresponding signal. -/
theorem sigPiece_pack (h : EdfHeader)
    (hall : ∀ s ∈ h.signals, signalOk s = true) (n : Nat)
    (hn : n < h.signals.length) :
    ∀ i, i < 10 →
    sigPiece h.signals.length h.packSignals i n =
      leftJust (edfSignalSizes.getD i 0)
        ((h.signals.getD n edfSignalDefault).fieldBytes i) := by
  have hfits : ∀ p ∈ sigBlockSpecs, ∀ s ∈ h.signals, (p.2 s).length ≤ p.1 :=
    fun p hp s hs => signalOk_specFits (hall s hs) p hp
  intro i hi
  unfold sigPiece
  rw [packSignals_eq_blocksConcat]
  interval_cases i
  · exact blocksConcat_extract h.signals sigBlockSpecs 0 n (by norm_num [sigBlockSpecs]) hfits hn
  · exact blocksConcat_extract h.signals sigBlockSpecs 1 n (by norm_num [sigBlockSpecs]) hfits hn
  · exact blocksConcat_extract h.signals sigBlockSpecs 2 n (by norm_num [sigBlockSpecs]) hfits hn
  · exact blocksConcat_extract h.signals sigBlockSpecs 3 n (by norm_num [sigBlockSpecs]) hfits hn
  · exact blocksConcat_extract h.signals sigBlockSpecs 4 n (by norm_num [sigBlockSpecs]) hfits hn
  · exact blocksConcat_extract h.signals sigBlockSpecs 5 n (by norm_num [sigBlockSpecs]) hfits hn
  · exact blocksConcat_extract h.signals sigBlockSpecs 6 n (by norm_num [sigBlockSpecs]) hfits hn
  · exact blocksConcat_extract h.signals sigBlockSpecs 7 n (by norm_num [sigBlockSpecs]) hfits hn
  · exact blocksConcat_extract h.signals sigBlockSpecs 8 n (by norm_num [sigBlockSpecs]) hfits hn
  · exact blocksConcat_extract h.signals sigBlockSpecs 9 n (by norm_num [sigBlockSpecs]) hfits hn

theorem parseFloatPy_leftJust (w : Nat) (bs : Bytes) :
    parseFloatPy (leftJust w bs) = parseFloatPy bs := by
  simp only [parseFloatPy, trim_leftJust]

theorem parseIntPy_leftJust (w : Nat) (bs : Bytes) :
    parseIntPy (leftJust w bs) = parseIntPy bs := by
  simp only [parseIntPy, trim_leftJust]

theorem set_label_leftJust {bs : Bytes} (hlen : bs.length ≤ 16)
    (htrim : trimBytes bs = bs) : EdfSignal.set_label (leftJust 16 bs) = bs := by
  unfold EdfSignal.set_label
  rw [if_neg (by rw [leftJust_length hlen]; omega), trim_leftJust, htrim]

theorem set_transducer_leftJust {bs : Bytes} (hlen : bs.length ≤ 80)
    (htrim : trimBytes bs = bs) :
    EdfSignal.set_transducer_type (leftJust 80 bs) = bs := by
  unfold EdfSignal.set_transducer_type
  rw [if_neg (by rw [leftJust_length hlen]; omega), trim_leftJust, htrim]

theorem set_physical_dim_leftJust {bs : Bytes} (hlen : bs.length ≤ 8)
    (htrim : trimBytes bs = bs) :
    EdfSignal.set_physical_dim (leftJust 8 bs) = bs := by
  unfold EdfSignal.set_physical_dim
  rw [if_neg (by rw [leftJust_length hlen]; omega), trim_leftJust, htrim]

theorem set_prefiltering_leftJust {bs : Bytes} (hlen : bs.length ≤ 80)
    (htrim : trimBytes bs = bs) :
    EdfSignal.set_prefiltering (leftJust 80 bs) = bs := by
  unfold EdfSignal.set_prefiltering
  rw [if_neg (by rw [leftJust_length hlen]; omega), trim_leftJust, htrim]

theorem set_reserved_leftJust {bs : Bytes} (htrim : trimBytes bs = bs) :
    EdfSignal.set_reserved (leftJust 32 bs) = bs := by
  unfold EdfSignal.set_reserved
  rw [trim_leftJust, htrim]

/-- Unpacking signal `n` from a packed signal block reproduces its ten
EDF fields and recomputes `sampling_freq` and `gain`. -/
theorem unpackOneSignal_pack (h : EdfHeader)
    (hall : ∀ s ∈ h.signals, signalOk s = true)
    (hdur : h.duration_of_data_record ≠ 0)
    (n : Nat) (hn : n < h.signals.length) :
    unpackOneSignal h.signals.length h.duration_of_data_record h.packSignals n =
      .ok { label := (h.signals.getD n edfSignalDefault).label
            transducer_type := (h.signals.getD n edfSignalDefault).transducer_type
            physical_dim := (h.signals.getD n edfSignalDefault).physical_dim
            physical_min := (h.signals.getD n edfSignalDefault).physical_min
            physical_max := (h.signals.getD n edfSignalDefault).physical_max
            digital_min := (h.signals.getD n edfSignalDefault).digital_min
            digital_max := (h.signals.getD n edfSignalDefault).digital_max
            prefiltering := (h.signals.getD n edfSignalDefault).prefiltering
            number_of_samples_in_data_record :=
              (h.signals.getD n edfSignalDefault).number_of_samples_in_data_record
            reserved := (h.signals.getD n edfSignalDefault).reserved
            sampling_freq :=
              ((h.signals.getD n edfSignalDefault).number_of_samples_in_data_record : ℚ) /
                h.duration_of_data_record
            gain := gainOf (h.signals.getD n edfSignalDefault).physical_min
              (h.signals.getD n edfSignalDefault).physical_max
              (h.signals.getD n edfSignalDefault).digital_min
              (h.signals.getD n edfSignalDefault).digital_max } := by
  have hmem : h.signals.getD n edfSignalDefault ∈ h.signals := by
    rw [List.getD_eq_getElem h.signals edfSignalDefault hn]
    exact List.getElem_mem hn
  have hsok := hall _ hmem
  obtain ⟨h1, h2, h3, h4, h5, h6, h7, h8, h9, h10, h11, h12⟩ := signalOk_parts hsok
  obtain ⟨l1, t1, _⟩ := strippedFits_parts h1
  obtain ⟨l2, t2, _⟩ := strippedFits_parts h2
  obtain ⟨l3, t3, _⟩ := strippedFits_parts h3
  obtain ⟨l4, t4, _⟩ := strippedFits_parts h4
  obtain ⟨l5, t5, _⟩ := strippedFits_parts h5
  unfold unpackOneSignal
  simp only [sigPiece_pack h hall n hn 0 (by norm_num),
    sigPiece_pack h hall n hn 1 (by norm_num),
    sigPiece_pack h hall n hn 2 (by norm_num),
    sigPiece_pack h hall n hn 3 (by norm_num),
    sigPiece_pack h hall n hn 4 (by norm_num),
    sigPiece_pack h hall n hn 5 (by norm_num),
    sigPiece_pack h hall n hn 6 (by norm_num),
    sigPiece_pack h hall n hn 7 (by norm_num),
    sigPiece_pack h hall n hn 8 (by norm_num),
    sigPiece_pack h hall n hn 9 (by norm_num)]
  simp only [EdfSignal.fieldBytes, edfSignalSizes, List.getD_cons_zero,
    List.getD_cons_succ]
  rw [set_label_leftJust l1 t1]
  simp only [parseFloatPy_leftJust, parseIntPy_leftJust,
    parseFloat_ratToDec (decimalOk_parts h6).1, parseFloat_ratToDec (decimalOk_parts h7).1,
    parseIntPy_intToDec, set_transducer_leftJust l2 t2,
    set_physical_dim_leftJust l3 t3, set_prefiltering_leftJust l4 t4,
    set_reserved_leftJust t5]
  simp only [pure_bind]
  simp only [if_neg h11,
    if_neg (show ¬(h.signals.getD n edfSignalDefault).digital_max =
        (h.signals.getD n edfSignalDefault).digital_min from
      fun heq => h10 heq.symm),
    if_neg hdur]
  rfl

/-! ## Lemmas: the packed main header -/

theorem headerOk_parts {h : EdfHeader} (hok : headerOk h = true) :
    strFits 8 h.version = true ∧ subjectOk h.subject_id = true ∧
    recordingOk h.recording_id = true ∧ dateOk h.startdate = true ∧
    1969 ≤ h.startdate.year ∧ h.startdate.year ≤ 2068 ∧ timeOk h.starttime = true ∧
    h.number_of_bytes_in_header = 256 + (h.signals.length : ℤ) * 256 ∧
    intFits 8 h.number_of_bytes_in_header = true ∧
    strFits 44 h.reserved = true ∧ intFits 8 h.number_of_data_records = true ∧
    decimalOk 8 h.duration_of_data_record = true ∧ h.duration_of_data_record ≠ 0 ∧
    h.number_of_signals = (h.signals.length : ℤ) ∧
    intFits 4 h.number_of_signals = true ∧ ∀ s ∈ h.signals, signalOk s = true := by
  simp only [headerOk, Bool.and_eq_true, decide_eq_true_eq, beq_iff_eq,
    bne_iff_ne, ne_eq, List.all_eq_true] at hok
  obtain ⟨⟨⟨⟨⟨⟨⟨⟨⟨⟨⟨⟨⟨⟨⟨q1, q2⟩, q3⟩, q4⟩, q5⟩, q6⟩, q7⟩, q8⟩, q9⟩, q10⟩,
    q11⟩, q12⟩, q13⟩, q14⟩, q15⟩, q16⟩ := hok
  exact ⟨q1, q2, q3, q4, q5, q6, q7, q8, q9, q10, q11, q12, q13, q14, q15, q16⟩

theorem strFits_parts {w : Nat} {bs : Bytes} (h : strFits w bs = true) :
    bs.length ≤ w ∧ ∀ c ∈ bs, c < 128 := by
  simp only [strFits, asciiOnly, Bool.and_eq_true, decide_eq_true_eq,
    List.all_eq_true] at h
  exact ⟨h.1, fun c hc => by simpa using h.2 c hc⟩

theorem fmtHdrDate_length {dt : EdfDate} (h : dateOk dt = true) :
    (fmtHdrDate dt).length = 8 := by
  obtain ⟨hv, _, _, _, hm2, _, hd2⟩ := dateOk_fields h
  rw [fmtHdrDate_shape]
  simp [pad2_length hd2, pad2_length (show dt.month < 100 by omega),
    pad2_length (Nat.mod_lt dt.year (show 0 < 100 by norm_num))]

theorem fmtHdrTime_length {t : EdfTime} (h : timeOk t = true) :
    (fmtHdrTime t).length = 8 := by
  simp only [timeOk, Bool.and_eq_true, decide_eq_true_eq] at h
  rw [fmtHdrTime_shape]
  simp [pad2_length (show t.hour < 100 by omega),
    pad2_length (show t.minute < 100 by omega),
    pad2_length (show t.second < 100 by omega)]

theorem digit_lt128 {c : Nat} (h : isDigitByte c = true) : c < 128 := by
  simp [isDigitByte] at h
  omega

theorem natToDec_lt128 {n : Nat} : ∀ c ∈ natToDec n, c < 128 :=
  fun c hc => digit_lt128 (natToDec_all_digits c hc)

theorem intToDec_lt128 {z : Int} : ∀ c ∈ intToDec z, c < 128 := by
  intro c hc
  unfold intToDec at hc
  split at hc
  · rcases List.mem_cons.mp hc with rfl | hc
    · norm_num
    · exact natToDec_lt128 c hc
  · exact natToDec_lt128 c hc

theorem pad2_lt128 {n : Nat} (h : n < 100) : ∀ c ∈ pad2 n, c < 128 :=
  fun c hc => digit_lt128 (pad2_digits h c hc)

theorem fmtHdrDate_lt128 {dt : EdfDate} (h : dateOk dt = true) :
    ∀ c ∈ fmtHdrDate dt, c < 128 := by
  obtain ⟨hv, _, _, _, hm2, _, hd2⟩ := dateOk_fields h
  intro c hc
  rw [fmtHdrDate_shape] at hc
  rcases List.mem_append.mp hc with hc | hc
  · exact pad2_lt128 hd2 c hc
  · rcases List.mem_cons.mp hc with rfl | hc
    · norm_num
    · rcases List.mem_append.mp hc with hc | hc
      · exact pad2_lt128 (by omega) c hc
      · rcases List.mem_cons.mp hc with rfl | hc
        · norm_num
        · exact pad2_lt128 (Nat.mod_lt dt.year (by norm_num)) c hc

theorem fmtHdrTime_lt128 {t : EdfTime} (h : timeOk t = true) :
    ∀ c ∈ fmtHdrTime t, c < 128 := by
  simp only [timeOk, Bool.and_eq_true, decide_eq_true_eq] at h
  intro c hc
  rw [fmtHdrTime_shape] at hc
  rcases List.mem_append.mp hc with hc | hc
  · exact pad2_lt128 (by omega) c hc
  · rcases List.mem_cons.mp hc with rfl | hc
    · norm_num
    · rcases List.mem_append.mp hc with hc | hc
      · exact pad2_lt128 (by omega) c hc
      · rcases List.mem_cons.mp hc with rfl | hc
        · norm_num
        · exact pad2_lt128 (by omega) c hc

theorem fmtDOB_lt128 {dt : EdfDate} (h : dateOk dt = true) :
    ∀ c ∈ fmtDOB dt, c < 128 := by
  obtain ⟨hv, _, _, hm1, hm2, _, hd2⟩ := dateOk_fields h
  have hmf := (month_facts dt.month hm1 hm2).2.2
  rw [List.all_eq_true] at hmf
  intro c hc
  rw [fmtDOB_shape] at hc
  rcases List.mem_append.mp hc with hc | hc
  · exact pad2_lt128 hd2 c hc
  · rcases List.mem_cons.mp hc with rfl | hc
    · norm_num
    · rcases List.mem_append.mp hc with hc | hc
      · have := hmf c hc
        simp only [Bool.and_eq_true, decide_eq_true_eq] at this
        exact this.1.1.1.1.1
      · rcases List.mem_cons.mp hc with rfl | hc
        · norm_num
        · exact natToDec_lt128 c hc

theorem ratToDec_lt128 {q : ℚ} : ∀ c ∈ ratToDec q, c < 128 := by
  intro c hc
  unfold ratToDec at hc
  simp only [List.mem_append, List.mem_cons] at hc
  rcases hc with (hsign | htake) | (rfl | hfrac)
  · split at hsign
    · simp at hsign
      omega
    · simp at hsign
  · exact digit_lt128 (ratDigitStr_digits c (List.mem_of_mem_take htake))
  · norm_num
  · split at hfrac
    · simp at hfrac
      omega
    · exact digit_lt128 (ratDigitStr_digits c (List.mem_of_mem_drop hfrac))

theorem subject_strval_lt128 {sid : EdfSubjectId} (h : subjectOk sid = true) :
    ∀ c ∈ sid.str_val, c < 128 := by
  obtain ⟨hc, hs, hd, hn, _⟩ := subjectOk_parts h
  intro c hcm
  unfold EdfSubjectId.str_val at hcm
  simp only [List.mem_append, List.mem_cons] at hcm
  rcases hcm with ((((((hcm | hcm) | hcm) | hcm) | hcm) | hcm) | hcm)
  · exact (tokenOk_parts hc).2.2 c hcm
  · simp at hcm
    omega
  · rcases hs with hs | hs | hs <;> (rw [hs] at hcm; simp [ascii] at hcm; omega)
  · simp at hcm
    omega
  · cases hdd : sid.dob with
    | none =>
      rw [hdd] at hcm
      simp [ascii] at hcm
      omega
    | some d =>
      rw [hdd] at hcm
      rw [hdd] at hd
      exact fmtDOB_lt128 (by simpa using hd) c hcm
  · simp at hcm
    omega
  · exact (tokenOk_parts hn).2.2 c hcm

theorem recording_strval_lt128 {rid : EdfRecordingId} (h : recordingOk rid = true) :
    ∀ c ∈ rid.str_val, c < 128 := by
  obtain ⟨hd, he, hi, hq, _⟩ := recordingOk_parts h
  intro c hcm
  unfold EdfRecordingId.str_val at hcm
  simp only [List.mem_append, List.mem_cons] at hcm
  rcases hcm with (((((((hcm | hcm) | hcm) | hcm) | hcm) | hcm) | hcm) | hcm)
  · simp [ascii] at hcm
    omega
  · exact fmtDOB_lt128 hd c hcm
  · simp at hcm
    omega
  · exact (tokenOk_parts he).2.2 c hcm
  · simp at hcm
    omega
  · exact (tokenOk_parts hi).2.2 c hcm
  · simp at hcm
    omega
  · exact (tokenOk_parts hq).2.2 c hcm

theorem exceptOkBind {a b : Type} (x : a) (f : a -> Except PyErr b) :
    (Except.ok x >>= f : Except PyErr b) = f x := rfl

theorem leftJust_lt128 {w : Nat} {bs : Bytes} (h : ∀ c ∈ bs, c < 128) :
    ∀ c ∈ leftJust w bs, c < 128 := by
  intro c hc
  rcases List.mem_append.mp hc with hc | hc
  · exact h c hc
  · have := List.eq_of_mem_replicate hc
    omega

theorem mainBytes_length {h : EdfHeader} (hok : headerOk h = true) :
    (h.mainBytes h.subject_id.str_val h.recording_id.str_val).length = 256 := by
  obtain ⟨q1, q2, q3, q4, _, _, q7, _, q9, q10, q11, q12, _, _, q15, _⟩ :=
    headerOk_parts hok
  unfold EdfHeader.mainBytes
  simp only [List.length_append]
  rw [leftJust_length (strFits_parts q1).1,
    leftJust_length (subjectOk_parts q2).2.2.2.2,
    leftJust_length (recordingOk_parts q3).2.2.2.2,
    leftJust_length (le_of_eq (fmtHdrDate_length q4)),
    leftJust_length (le_of_eq (fmtHdrTime_length q7)),
    leftJust_length (intFits_le q9),
    leftJust_length (strFits_parts q10).1,
    leftJust_length (intFits_le q11),
    leftJust_length (decimalOk_parts q12).2,
    leftJust_length (intFits_le q15)]

theorem mainBytes_lt128 {h : EdfHeader} (hok : headerOk h = true) :
    ∀ c ∈ h.mainBytes h.subject_id.str_val h.recording_id.str_val, c < 128 := by
  obtain ⟨q1, q2, q3, q4, _, _, q7, _, q9, q10, q11, q12, _, _, q15, _⟩ :=
    headerOk_parts hok
  intro c hc
  unfold EdfHeader.mainBytes at hc
  simp only [List.mem_append] at hc
  rcases hc with ((((((((hc | hc) | hc) | hc) | hc) | hc) | hc) | hc) | hc) | hc
  · exact leftJust_lt128 (strFits_parts q1).2 c hc
  · exact leftJust_lt128 (subject_strval_lt128 q2) c hc
  · exact leftJust_lt128 (recording_strval_lt128 q3) c hc
  · exact leftJust_lt128 (fmtHdrDate_lt128 q4) c hc
  · exact leftJust_lt128 (fmtHdrTime_lt128 q7) c hc
  · exact leftJust_lt128 intToDec_lt128 c hc
  · exact leftJust_lt128 (strFits_parts q10).2 c hc
  · exact leftJust_lt128 intToDec_lt128 c hc
  · exact leftJust_lt128 ratToDec_lt128 c hc
  · exact leftJust_lt128 intToDec_lt128 c hc

theorem sigField_lt128 {s : EdfSignal} (h : signalOk s = true) :
    ∀ p ∈ sigBlockSpecs, ∀ c ∈ p.2 s, c < 128 := by
  obtain ⟨h1, h2, h3, h4, h5, _, _, _, _, _, _, _⟩ := signalOk_parts h
  intro p hp
  fin_cases hp
  · exact (strippedFits_parts h1).2.2
  · exact (strippedFits_parts h2).2.2
  · exact (strippedFits_parts h3).2.2
  · exact ratToDec_lt128
  · exact ratToDec_lt128
  · exact intToDec_lt128
  · exact intToDec_lt128
  · exact (strippedFits_parts h4).2.2
  · exact intToDec_lt128
  · exact (strippedFits_parts h5).2.2

theorem packSignals_lt128 {h : EdfHeader}
    (hall : ∀ s ∈ h.signals, signalOk s = true) :
    ∀ c ∈ h.packSignals, c < 128 := by
  rw [packSignals_eq_blocksConcat]
  intro c hc
  unfold blocksConcat at hc
  obtain ⟨l, hl, hcl⟩ := List.mem_flatten.mp hc
  obtain ⟨p, hp, rfl⟩ := List.mem_map.mp hl
  unfold fieldBlock at hcl
  obtain ⟨l2, hl2, hcl2⟩ := List.mem_flatten.mp hcl
  obtain ⟨sg, hsg, rfl⟩ := List.mem_map.mp hl2
  exact leftJust_lt128 (sigField_lt128 (hall sg hsg) p hp) c hcl2

theorem packSignals_length {h : EdfHeader}
    (hall : ∀ s ∈ h.signals, signalOk s = true) :
    h.packSignals.length = h.signals.length * 256 := by
  have hfits : ∀ p ∈ sigBlockSpecs, ∀ s ∈ h.signals, (p.2 s).length ≤ p.1 :=
    fun p hp s hs => signalOk_specFits (hall s hs) p hp
  rw [packSignals_eq_blocksConcat]
  unfold blocksConcat
  rw [List.length_flatten]
  simp only [sigBlockSpecs, List.map_cons, List.map_nil, List.map_map,
    List.sum_cons, List.sum_nil]
  have hfb : ∀ p ∈ sigBlockSpecs, (fieldBlock p.1 p.2 h.signals).length =
      h.signals.length * p.1 := fun p hp => fieldBlock_length (hfits p hp)
  rw [hfb (16, fun s => s.label) (by norm_num [sigBlockSpecs]),
    hfb (80, fun s => s.transducer_type) (by norm_num [sigBlockSpecs]),
    hfb (8, fun s => s.physical_dim) (by norm_num [sigBlockSpecs]),
    hfb (8, fun s => ratToDec s.physical_min) (by norm_num [sigBlockSpecs]),
    hfb (8, fun s => ratToDec s.physical_max) (by norm_num [sigBlockSpecs]),
    hfb (8, fun s => intToDec s.digital_min) (by norm_num [sigBlockSpecs]),
    hfb (8, fun s => intToDec s.digital_max) (by norm_num [sigBlockSpecs]),
    hfb (80, fun s => s.prefiltering) (by norm_num [sigBlockSpecs]),
    hfb (8, fun s => intToDec s.number_of_samples_in_data_record)
      (by norm_num [sigBlockSpecs]),
    hfb (32, fun s => s.reserved) (by norm_num [sigBlockSpecs])]
  ring

/-- For a valid header, `pack` succeeds and produces the main block
followed by the field-major signal block. -/
theorem pack_ok {h : EdfHeader} (hok : headerOk h = true) :
    h.pack = .ok (h.mainBytes h.subject_id.str_val h.recording_id.str_val ++
      h.packSignals) := by
  obtain ⟨q1, q2, q3, q4, _, _, q7, _, q9, q10, q11, q12, _, q14, q15, q16⟩ :=
    headerOk_parts hok
  have hsubj : h.subject_id.to_str = .ok h.subject_id.str_val := by
    unfold EdfSubjectId.to_str
    rw [if_neg (by have := (subjectOk_parts q2).2.2.2.2; omega)]
  have hrid : h.recording_id.to_str = .ok h.recording_id.str_val := by
    unfold EdfRecordingId.to_str
    rw [if_neg (by have := (recordingOk_parts q3).2.2.2.2; omega)]
  have hmainall : (h.mainBytes h.subject_id.str_val h.recording_id.str_val).all
      (fun c => c < 128) = true := by
    rw [List.all_eq_true]
    intro c hc
    simpa using mainBytes_lt128 hok c hc
  have hsigall : h.packSignals.all (fun c => c < 128) = true := by
    rw [List.all_eq_true]
    intro c hc
    simpa using packSignals_lt128 q16 c hc
  unfold EdfHeader.pack EdfHeader.packMain
  rw [hsubj, hrid, exceptOkBind, exceptOkBind, exceptOkBind]
  rw [hmainall, mainBytes_length hok]
  simp only [Bool.true_eq_false, if_false, if_neg (by norm_num : ¬(256 : Nat) ≠ 256)]
  rw [hsigall]
  simp only [Bool.true_eq_false, if_false]
  rw [if_neg (by
    rw [packSignals_length q16, q14]
    push_cast
    ring_nf
    omega)]
  rfl

theorem leftJust_exact {w : Nat} {bs : Bytes} (h : bs.length = w) :
    leftJust w bs = bs := by
  unfold leftJust
  rw [h, Nat.sub_self, List.replicate_zero, List.append_nil]

theorem splitSizes_last {w : Nat} {b : Bytes} (h : b.length ≤ w) :
    splitSizes [w] b = [b] := by
  rw [splitSizes, List.take_of_length_le h]
  rfl

/-- Slicing the packed main header at the EDF field widths recovers the
ten padded fields. -/
theorem splitSizes_main {h : EdfHeader} (hok : headerOk h = true) :
    splitSizes edfHeaderSizes
        (h.mainBytes h.subject_id.str_val h.recording_id.str_val) =
      [leftJust 8 h.version,
       leftJust 80 h.subject_id.str_val,
       leftJust 80 h.recording_id.str_val,
       fmtHdrDate h.startdate,
       fmtHdrTime h.starttime,
       leftJust 8 (intToDec h.number_of_bytes_in_header),
       leftJust 44 h.reserved,
       leftJust 8 (intToDec h.number_of_data_records),
       leftJust 8 (ratToDec h.duration_of_data_record),
       leftJust 4 (intToDec h.number_of_signals)] := by
  obtain ⟨q1, q2, q3, q4, _, _, q7, _, q9, q10, q11, q12, _, _, q15, _⟩ :=
    headerOk_parts hok
  unfold EdfHeader.mainBytes
  rw [leftJust_exact (fmtHdrDate_length q4), leftJust_exact (fmtHdrTime_length q7)]
  simp only [edfHeaderSizes, List.append_assoc]
  rw [splitSizes_cons (leftJust_length (strFits_parts q1).1),
    splitSizes_cons (leftJust_length (subjectOk_parts q2).2.2.2.2),
    splitSizes_cons (leftJust_length (recordingOk_parts q3).2.2.2.2),
    splitSizes_cons (fmtHdrDate_length q4),
    splitSizes_cons (fmtHdrTime_length q7),
    splitSizes_cons (leftJust_length (intFits_le q9)),
    splitSizes_cons (leftJust_length (strFits_parts q10).1),
    splitSizes_cons (leftJust_length (intFits_le q11)),
    splitSizes_cons (leftJust_length (decimalOk_parts q12).2),
    splitSizes_last (leftJust_length (intFits_le q15)).le]

theorem mapM_ok_all {l : List Nat} {f : Nat → Except PyErr EdfSignal}
    {g : Nat → EdfSignal} (hf : ∀ n ∈ l, f n = .ok (g n)) :
    l.mapM f = .ok (l.map g) := by
  induction l with
  | nil => rfl
  | cons a l ih =>
    rw [List.mapM_cons, hf a (List.mem_cons_self a l), exceptOkBind,
      ih (fun n hn => hf n (List.mem_cons_of_mem a hn)), exceptOkBind]
    rfl

/-- Unpacking the bytes produced by a valid header's `pack` succeeds,
yielding the padded raw strings, the parsed structured fields, and the
rebuilt signal list. -/
theorem header_fromfile_pack {h : EdfHeader} (hok : headerOk h = true) :
    header_fromfile
        (h.mainBytes h.subject_id.str_val h.recording_id.str_val ++
          h.packSignals) =
      .ok (EdfHeader.set_signals
        { version := leftJust 8 h.version
          subject_id := h.subject_id
          recording_id := h.recording_id
          startdate := h.startdate
          starttime := h.starttime
          number_of_bytes_in_header := h.number_of_bytes_in_header
          reserved := leftJust 44 h.reserved
          number_of_data_records := h.number_of_data_records
          duration_of_data_record := h.duration_of_data_record
          number_of_signals := h.number_of_signals
          signals := [] }
        ((List.range h.signals.length).map (fun n =>
          { label := (h.signals.getD n edfSignalDefault).label
            transducer_type := (h.signals.getD n edfSignalDefault).transducer_type
            physical_dim := (h.signals.getD n edfSignalDefault).physical_dim
            physical_min := (h.signals.getD n edfSignalDefault).physical_min
            physical_max := (h.signals.getD n edfSignalDefault).physical_max
            digital_min := (h.signals.getD n edfSignalDefault).digital_min
            digital_max := (h.signals.getD n edfSignalDefault).digital_max
            prefiltering := (h.signals.getD n edfSignalDefault).prefiltering
            number_of_samples_in_data_record :=
              (h.signals.getD n edfSignalDefault).number_of_samples_in_data_record
            reserved := (h.signals.getD n edfSignalDefault).reserved
            sampling_freq :=
              ((h.signals.getD n edfSignalDefault).number_of_samples_in_data_record : ℚ) /
                h.duration_of_data_record
            gain := gainOf (h.signals.getD n edfSignalDefault).physical_min
              (h.signals.getD n edfSignalDefault).physical_max
              (h.signals.getD n edfSignalDefault).digital_min
              (h.signals.getD n edfSignalDefault).digital_max }))) := by
  obtain ⟨q1, q2, q3, q4, q5, q6, q7, q8, q9, q10, q11, q12, q13, q14, q15, q16⟩ :=
    headerOk_parts hok
  have hml := mainBytes_length hok
  have hsl := packSignals_length q16
  have htake : (h.mainBytes h.subject_id.str_val h.recording_id.str_val ++
      h.packSignals).take 256 =
      h.mainBytes h.subject_id.str_val h.recording_id.str_val := by
    rw [← hml]
    exact List.take_left _ _
  have hdrop : (h.mainBytes h.subject_id.str_val h.recording_id.str_val ++
      h.packSignals).drop 256 = h.packSignals := by
    rw [← hml]
    exact List.drop_left _ _
  have hmain_ascii : ((h.mainBytes h.subject_id.str_val h.recording_id.str_val).all
      (fun c => c < 128)) = true := by
    rw [List.all_eq_true]
    intro c hc
    simpa using mainBytes_lt128 hok c hc
  have hsig_ascii : (h.packSignals.all (fun c => c < 128)) = true := by
    rw [List.all_eq_true]
    intro c hc
    simpa using packSignals_lt128 q16 c hc
  have hsubjsplit : splitWS (leftJust 80 h.subject_id.str_val) =
      [h.subject_id.code, h.subject_id.sex,
       (match h.subject_id.dob with | none => ascii "X" | some d => fmtDOB d),
       h.subject_id.name] := by
    unfold leftJust
    exact splitWS_subject q2 _
  have hrecsplit : splitWS (leftJust 80 h.recording_id.str_val) =
      [ascii "Startdate", fmtDOB h.recording_id.startdate,
       h.recording_id.experiment_id, h.recording_id.investigator_id,
       h.recording_id.equipment_code] := by
    unfold leftJust
    exact splitWS_recording q3 _
  have hstake : h.packSignals.take (256 * h.signals.length) = h.packSignals :=
    List.take_of_length_le (by rw [hsl]; omega)
  unfold header_fromfile
  simp only [htake, hdrop, hml]
  rw [if_neg (by norm_num)]
  simp only [hmain_ascii, Bool.true_eq_false, if_false]
  simp only [splitSizes_main hok, List.getD_cons_zero, List.getD_cons_succ]
  simp only [hsubjsplit, hrecsplit, mk_str_subject q2, mk_str_recording q3,
    pure_bind]
  simp only [parseISOdate_fmtHdrDate (dateOk_fields q4).1,
    parseHdrDate_fmt (dateOk_fields q4).1 q5 q6,
    parseTimeSep58_fmtHdrTime h.starttime q7,
    parseTimeSep46_fmtHdrTime h.starttime q7,
    parseIntPy_leftJust, parseIntPy_intToDec, parseFloatPy_leftJust,
    parseFloat_ratToDec (decimalOk_parts q12).1, pure_bind]
  simp only [q14]
  rw [if_neg (show ¬((h.signals.length : ℤ) < 0) by omega)]
  simp only [Int.toNat_natCast, hstake, hsl]
  rw [if_neg (by omega)]
  simp only [hsig_ascii, Bool.true_eq_false, if_false]
  have hf : ∀ n ∈ List.range h.signals.length,
      unpackOneSignal h.signals.length h.duration_of_data_record h.packSignals n =
        .ok ((fun n =>
          ({ label := (h.signals.getD n edfSignalDefault).label
             transducer_type := (h.signals.getD n edfSignalDefault).transducer_type
             physical_dim := (h.signals.getD n edfSignalDefault).physical_dim
             physical_min := (h.signals.getD n edfSignalDefault).physical_min
             physical_max := (h.signals.getD n edfSignalDefault).physical_max
             digital_min := (h.signals.getD n edfSignalDefault).digital_min
             digital_max := (h.signals.getD n edfSignalDefault).digital_max
             prefiltering := (h.signals.getD n edfSignalDefault).prefiltering
             number_of_samples_in_data_record :=
               (h.signals.getD n edfSignalDefault).number_of_samples_in_data_record
             reserved := (h.signals.getD n edfSignalDefault).reserved
             sampling_freq :=
               ((h.signals.getD n edfSignalDefault).number_of_samples_in_data_record : ℚ) /
                 h.duration_of_data_record
             gain := gainOf (h.signals.getD n edfSignalDefault).physical_min
               (h.signals.getD n edfSignalDefault).physical_max
               (h.signals.getD n edfSignalDefault).digital_min
               (h.signals.getD n edfSignalDefault).digital_max } : EdfSignal)) n) := by
    intro n hn
    exact unpackOneSignal_pack h q16 q13 n (List.mem_range.mp hn)
  rw [mapM_ok_all hf, exceptOkBind]
  rfl

/-- C1: for every valid header (identity strings fit their 80-byte
slots, every field fits its fixed-width slot, dates valid — `headerOk`),
unpacking the bytes produced by `pack` yields a header equal to the
original field by field after ASCII whitespace trim: subject and
recording identity subfields, start date and time, and every signal
descriptor field of every signal (`HeaderMatch`). -/
theorem c1_pack_unpack_roundtrip {h : EdfHeader} (hok : headerOk h = true) :
    ∃ bytes h2, h.pack = .ok bytes ∧ header_fromfile bytes = .ok h2 ∧
      HeaderMatch h h2 := by
  obtain ⟨q1, q2, q3, q4, q5, q6, q7, q8, q9, q10, q11, q12, q13, q14, q15, q16⟩ :=
    headerOk_parts hok
  refine ⟨_, _, pack_ok hok, header_fromfile_pack hok, ?_⟩
  refine ⟨trim_leftJust 8 h.version, rfl, rfl, rfl, rfl, ?_,
    trim_leftJust 44 h.reserved, rfl, rfl, ?_, ?_⟩
  · simp only [EdfHeader.set_signals, List.length_map, List.length_range]
    exact q8.symm
  · simp only [EdfHeader.set_signals, List.length_map, List.length_range]
    exact q14.symm
  · simp only [EdfHeader.set_signals]
    rw [List.forall₂_iff_get]
    constructor
    · simp
    · intro i h1 h2
      have hi : i < h.signals.length := h1
      simp only [List.get_eq_getElem, List.getElem_map, List.getElem_range]
      unfold SigMatch
      simp only [List.getD_eq_getElem h.signals edfSignalDefault hi]
      exact ⟨trivial, trivial, trivial, trivial, trivial, trivial, trivial,
        trivial, trivial, trivial⟩

theorem c1_witness : headerOk hdrW = true ∧
    ∃ bytes h2, hdrW.pack = .ok bytes ∧ header_fromfile bytes = .ok h2 ∧
      HeaderMatch hdrW h2 :=
  ⟨by decide, c1_pack_unpack_roundtrip (by decide)⟩

/-- C2: for every valid header, `pack` lays the signal block out
field-major — after the 256 main bytes come the labels of all signals
(16 bytes each), then all transducer types, and so on through the ten
descriptor fields in declared order; in particular the width-16 slice
at offset `256 + 16 n` is signal `n`'s padded label. -/
theorem c2_field_major_layout {h : EdfHeader} (hok : headerOk h = true) :
    ∃ bytes, h.pack = .ok bytes ∧
      bytes.drop 256 =
        fieldBlock 16 (fun s => s.label) h.signals ++
        fieldBlock 80 (fun s => s.transducer_type) h.signals ++
        fieldBlock 8 (fun s => s.physical_dim) h.signals ++
        fieldBlock 8 (fun s => ratToDec s.physical_min) h.signals ++
        fieldBlock 8 (fun s => ratToDec s.physical_max) h.signals ++
        fieldBlock 8 (fun s => intToDec s.digital_min) h.signals ++
        fieldBlock 8 (fun s => intToDec s.digital_max) h.signals ++
        fieldBlock 80 (fun s => s.prefiltering) h.signals ++
        fieldBlock 8 (fun s => intToDec s.number_of_samples_in_data_record)
          h.signals ++
        fieldBlock 32 (fun s => s.reserved) h.signals ∧
      ∀ n, n < h.signals.length →
        (bytes.drop (256 + n * 16)).take 16 =
          leftJust 16 ((h.signals.getD n edfSignalDefault).label) := by
  have q16 := (headerOk_parts hok).2.2.2.2.2.2.2.2.2.2.2.2.2.2.2
  have hml := mainBytes_length hok
  refine ⟨_, pack_ok hok, ?_, ?_⟩
  · have hd : (h.mainBytes h.subject_id.str_val h.recording_id.str_val ++
        h.packSignals).drop 256 = h.packSignals := by
      rw [← hml]
      exact List.drop_left _ _
    rw [hd]
    rfl
  · intro n hn
    have hd : (h.mainBytes h.subject_id.str_val h.recording_id.str_val ++
        h.packSignals).drop (256 + n * 16) = h.packSignals.drop (n * 16) := by
      rw [← hml]
      exact List.drop_append (n * 16)
    rw [hd, packSignals_eq_blocksConcat]
    have hfits : ∀ p ∈ sigBlockSpecs, ∀ s ∈ h.signals, (p.2 s).length ≤ p.1 :=
      fun p hp s hs => signalOk_specFits (q16 s hs) p hp
    have := blocksConcat_extract h.signals sigBlockSpecs 0 n
      (by norm_num [sigBlockSpecs]) hfits hn
    simpa [sigBlockSpecs, offSum] using this

theorem c2_witness : headerOk hdrW2 = true ∧
    (∃ bytes, hdrW2.pack = .ok bytes ∧
      bytes.drop 256 =
        fieldBlock 16 (fun s => s.label) hdrW2.signals ++
        fieldBlock 80 (fun s => s.transducer_type) hdrW2.signals ++
        fieldBlock 8 (fun s => s.physical_dim) hdrW2.signals ++
        fieldBlock 8 (fun s => ratToDec s.physical_min) hdrW2.signals ++
        fieldBlock 8 (fun s => ratToDec s.physical_max) hdrW2.signals ++
        fieldBlock 8 (fun s => intToDec s.digital_min) hdrW2.signals ++
        fieldBlock 8 (fun s => intToDec s.digital_max) hdrW2.signals ++
        fieldBlock 80 (fun s => s.prefiltering) hdrW2.signals ++
        fieldBlock 8 (fun s => intToDec s.number_of_samples_in_data_record)
          hdrW2.signals ++
        fieldBlock 32 (fun s => s.reserved) hdrW2.signals ∧
      ∀ n, n < hdrW2.signals.length →
        (bytes.drop (256 + n * 16)).take 16 =
          leftJust 16 ((hdrW2.signals.getD n edfSignalDefault).label)) :=
  ⟨by decide, c2_field_major_layout (by decide)⟩

/-! ## Lemmas: the writer's counter patch (C3) -/

theorem intToDec_length_of_lt {z : ℤ} (h0 : 0 ≤ z) (h : z < 10 ^ 8) :
    (intToDec z).length ≤ 8 := by
  unfold intToDec
  rw [if_neg (by omega)]
  refine natToDec_length_le (by norm_num) ?_
  omega

theorem fileWrite_length_of_le {f : Bytes} {p : Nat} (d : Bytes)
    (h : p ≤ f.length) :
    (fileWrite f p d).length = max f.length (p + d.length) := by
  unfold fileWrite
  rw [if_neg (by omega)]
  simp only [List.length_append, List.length_take, List.length_drop]
  omega

theorem fileWrite_counter_slice {f d : Bytes} (hf : 244 ≤ f.length)
    (hd : d.length = 8) :
    ((fileWrite f 236 d).drop 236).take 8 = d := by
  unfold fileWrite
  rw [if_neg (by omega)]
  have ht : (f.take 236).length = 236 := by
    rw [List.length_take]
    omega
  rw [List.append_assoc, List.drop_left' ht, List.take_left' hd]

/-- One `write_data_record` call: the buffer is appended at the cursor,
the counter increments and is patched on disk at offset 236, and the
cursor ends just after the appended data. -/
theorem write_data_record_step (w : EdfWriter) (buf : Bytes)
    (hpos : 244 ≤ w.pos) (hfl : w.pos ≤ w.file.length)
    (hndr : 0 ≤ w.header.number_of_data_records)
    (hfit : w.header.number_of_data_records + 1 < 10 ^ 8) :
    (w.write_data_record buf).file =
      fileWrite (fileWrite w.file w.pos buf) 236
        (leftJust 8 (intToDec (w.header.number_of_data_records + 1))) ∧
    (w.write_data_record buf).pos = w.pos + buf.length ∧
    (w.write_data_record buf).pos ≤ (w.write_data_record buf).file.length ∧
    (w.write_data_record buf).header =
      w.header.set_number_of_data_records
        (w.header.number_of_data_records + 1) ∧
    ((w.write_data_record buf).file.drop 236).take 8 =
      leftJust 8 (intToDec (w.header.number_of_data_records + 1)) ∧
    (w.write_data_record buf).closed = w.closed := by
  have h1 : (fileWrite w.file w.pos buf).length =
      max w.file.length (w.pos + buf.length) :=
    fileWrite_length_of_le buf hfl
  have hnr : (leftJust 8 (intToDec (w.header.number_of_data_records + 1))).length
      = 8 := leftJust_length (intToDec_length_of_lt (by omega) (by omega))
  refine ⟨rfl, rfl, ?_, rfl, ?_, rfl⟩
  · show w.pos + buf.length ≤ (fileWrite (fileWrite w.file w.pos buf) 236
      (leftJust 8 (intToDec (w.header.number_of_data_records + 1)))).length
    rw [fileWrite_length_of_le _ (by rw [h1]; omega), h1, hnr]
    omega
  · exact fileWrite_counter_slice (by rw [h1]; omega) hnr

/-- Writing a whole list of buffers: the counter, its on-disk patch, the
cursor and the `closed` flag after `k = bufs.length` calls. -/
theorem writeAll_counter (bufs : List Bytes) : ∀ (st : EdfWriter),
    244 ≤ st.pos → st.pos ≤ st.file.length →
    0 ≤ st.header.number_of_data_records →
    st.header.number_of_data_records + bufs.length < 10 ^ 8 →
    (st.file.drop 236).take 8 =
      leftJust 8 (intToDec st.header.number_of_data_records) →
    (244 ≤ (st.writeAll bufs).pos ∧
     (st.writeAll bufs).pos ≤ (st.writeAll bufs).file.length ∧
     (st.writeAll bufs).header.number_of_data_records =
       st.header.number_of_data_records + bufs.length ∧
     ((st.writeAll bufs).file.drop 236).take 8 =
       leftJust 8 (intToDec (st.header.number_of_data_records + bufs.length)) ∧
     (st.writeAll bufs).closed = st.closed) := by
  induction bufs with
  | nil =>
    intro st h1 h2 h3 h4 h5
    refine ⟨h1, h2, by simp [EdfWriter.writeAll], ?_, rfl⟩
    simpa [EdfWriter.writeAll] using h5
  | cons buf bufs ih =>
    intro st h1 h2 h3 h4 h5
    have hlen : (buf :: bufs).length = bufs.length + 1 := rfl
    obtain ⟨s1, s2, s3, s4, s5, s6⟩ :=
      write_data_record_step st buf h1 h2 h3 (by omega)
    have hn1 : 0 ≤ (st.write_data_record buf).header.number_of_data_records := by
      rw [s4]
      show (0 : ℤ) ≤ st.header.number_of_data_records + 1
      omega
    have hn2 : (st.write_data_record buf).header.number_of_data_records +
        bufs.length < 10 ^ 8 := by
      rw [s4]
      show st.header.number_of_data_records + 1 + (bufs.length : ℤ) < 10 ^ 8
      omega
    have hn3 : ((st.write_data_record buf).file.drop 236).take 8 =
        leftJust 8 (intToDec
          (st.write_data_record buf).header.number_of_data_records) := by
      rw [s5, s4]
      rfl
    have hstep := ih (st.write_data_record buf) (by omega) s3 hn1 hn2 hn3
    have hwa : st.writeAll (buf :: bufs) =
        (st.write_data_record buf).writeAll bufs := rfl
    have harg : (st.write_data_record buf).header.number_of_data_records +
        (bufs.length : ℤ) =
        st.header.number_of_data_records + ((buf :: bufs).length : ℤ) := by
      rw [s4]
      show st.header.number_of_data_records + 1 + (bufs.length : ℤ) = _
      push_cast [List.length_cons]
      ring
    rw [hwa]
    refine ⟨by omega, hstep.2.1, ?_, ?_, by rw [hstep.2.2.2.2, s6]⟩
    · rw [hstep.2.2.1, harg]
    · rw [hstep.2.2.2.1, harg]

/-- C3: every `write_data_record` call appends the buffer at the current
file position, increments `number_of_data_records`, and rewrites only
the width-8 counter field at offset 236 while the cursor ends at its
pre-patch position (just after the appended data); consequently, even
without `close`, after writing `k` records the on-disk counter field
holds — and parses back as — `k`. -/
theorem c3_counter_durability (st0 : EdfWriter) (bufs : List Bytes)
    (hpos : 244 ≤ st0.pos) (hfl : st0.pos ≤ st0.file.length)
    (hndr0 : st0.header.number_of_data_records = 0)
    (hk : (bufs.length : ℤ) < 10 ^ 8)
    (hdisk : (st0.file.drop 236).take 8 = leftJust 8 (intToDec 0)) :
    (∀ (w : EdfWriter) (buf : Bytes),
      (w.write_data_record buf).file =
        fileWrite (fileWrite w.file w.pos buf) 236
          (leftJust 8 (intToDec (w.header.number_of_data_records + 1))) ∧
      (w.write_data_record buf).pos = w.pos + buf.length ∧
      (w.write_data_record buf).header.number_of_data_records =
        w.header.number_of_data_records + 1) ∧
    (st0.writeAll bufs).header.number_of_data_records = (bufs.length : ℤ) ∧
    ((st0.writeAll bufs).file.drop 236).take 8 =
      leftJust 8 (intToDec (bufs.length : ℤ)) ∧
    parseIntPy (((st0.writeAll bufs).file.drop 236).take 8) =
      some (bufs.length : ℤ) ∧
    (st0.writeAll bufs).closed = st0.closed := by
  obtain ⟨_, _, h3, h4, h5⟩ := writeAll_counter bufs st0 hpos hfl
    (by omega) (by omega) (by rw [hndr0]; exact hdisk)
  have hslice : ((st0.writeAll bufs).file.drop 236).take 8 =
      leftJust 8 (intToDec (bufs.length : ℤ)) := by
    rw [h4, hndr0, zero_add]
  refine ⟨fun w buf => ⟨rfl, rfl, rfl⟩, ?_, hslice, ?_, h5⟩
  · rw [h3, hndr0, zero_add]
  · rw [hslice, parseIntPy_leftJust, parseIntPy_intToDec]

theorem c3_witness :
    (244 ≤ wM.pos ∧ wM.pos ≤ wM.file.length ∧
     wM.header.number_of_data_records = 0 ∧
     ((([[1, 2], [3]] : List Bytes).length : ℤ) < 10 ^ 8) ∧
     (wM.file.drop 236).take 8 = leftJust 8 (intToDec 0)) ∧
    ((∀ (w : EdfWriter) (buf : Bytes),
      (w.write_data_record buf).file =
        fileWrite (fileWrite w.file w.pos buf) 236
          (leftJust 8 (intToDec (w.header.number_of_data_records + 1))) ∧
      (w.write_data_record buf).pos = w.pos + buf.length ∧
      (w.write_data_record buf).header.number_of_data_records =
        w.header.number_of_data_records + 1) ∧
    (wM.writeAll [[1, 2], [3]]).header.number_of_data_records =
      ((([[1, 2], [3]] : List Bytes).length : ℤ)) ∧
    ((wM.writeAll [[1, 2], [3]]).file.drop 236).take 8 =
      leftJust 8 (intToDec ((([[1, 2], [3]] : List Bytes).length : ℤ))) ∧
    parseIntPy (((wM.writeAll [[1, 2], [3]]).file.drop 236).take 8) =
      some ((([[1, 2], [3]] : List Bytes).length : ℤ)) ∧
    (wM.writeAll [[1, 2], [3]]).closed = wM.closed) :=
  ⟨⟨by decide, by decide, by decide, by decide, by decide⟩,
   c3_counter_durability wM [[1, 2], [3]] (by decide) (by decide) (by decide)
     (by decide) (by decide)⟩

/-! ## Lemmas: `read_signal` record range and filtering (C4) -/

theorem readRecordsLoop_ok (r : EdfReader) (sig : ℤ)
    (times samples : ℤ → List ℚ) :
    ∀ recs : List ℤ,
    (∀ rec ∈ recs, r.read_signal_from_record sig rec =
      .ok (times rec, samples rec)) →
    r.readRecordsLoop sig recs =
      .ok ((recs.map times).flatten, (recs.map samples).flatten) := by
  intro recs
  induction recs with
  | nil =>
    intro _
    rfl
  | cons rec rest ih =>
    intro h
    show (do
      let xy ← r.read_signal_from_record sig rec
      let rest' ← r.readRecordsLoop sig rest
      (.ok (xy.1 ++ rest'.1, xy.2 ++ rest'.2) : Except PyErr _)) = _
    rw [h rec (List.mem_cons_self rec rest), exceptOkBind,
      ih (fun x hx => h x (List.mem_cons_of_mem rec hx)), exceptOkBind]
    simp

theorem zip_flatten_map (times samples : ℤ → List ℚ) :
    ∀ recs : List ℤ,
    (∀ rec ∈ recs, (times rec).length = (samples rec).length) →
    ((recs.map times).flatten).zip ((recs.map samples).flatten) =
      (recs.map (fun rec => (times rec).zip (samples rec))).flatten := by
  intro recs
  induction recs with
  | nil =>
    intro _
    rfl
  | cons rec rest ih =>
    intro h
    simp only [List.map_cons, List.flatten_cons]
    rw [List.zip_append (h rec (List.mem_cons_self rec rest)),
      ih (fun x hx => h x (List.mem_cons_of_mem rec hx))]

theorem intRange_eq (a b : ℤ) :
    intRange a b = (List.range (b - a).toNat).map (fun i : ℕ => a + (i : ℤ)) := by
  unfold intRange
  simp only [bind_pure_comp, List.map_eq_map, List.map_map]
  rfl

theorem recordTimes_eq (n : Nat) (freq dur : ℚ) (rec : ℤ) :
    recordTimes n freq dur rec =
      (List.range n).map (fun i : ℕ => (i : ℚ) / freq + dur * (rec : ℚ)) := by
  unfold recordTimes
  simp only [bind_pure_comp, List.map_eq_map, List.map_map]
  rfl

theorem intRange_append {a b c : ℤ} (h1 : a ≤ b) (h2 : b ≤ c) :
    intRange a c = intRange a b ++ intRange b c := by
  rw [intRange_eq, intRange_eq, intRange_eq]
  have hsum : (c - a).toNat = (b - a).toNat + (c - b).toNat := by omega
  rw [hsum, List.range_add, List.map_append, List.map_map]
  congr 1
  apply List.map_congr_left
  intro i hi
  simp only [Function.comp_apply]
  have hba : ((b - a).toNat : ℤ) = b - a := by omega
  push_cast
  omega

theorem recordTimes_bounds {n : Nat} {freq dur : ℚ} {rec : ℤ}
    (hfreq : 0 < freq) (hdur : freq * dur = (n : ℚ)) :
    ∀ t ∈ recordTimes n freq dur rec,
      dur * (rec : ℚ) ≤ t ∧ t < dur * ((rec : ℚ) + 1) := by
  intro t ht
  rw [recordTimes_eq] at ht
  obtain ⟨i, hi, rfl⟩ := List.mem_map.mp ht
  have hin : (i : ℚ) < (n : ℚ) := by
    exact_mod_cast List.mem_range.mp hi
  have hi0 : (0 : ℚ) ≤ (i : ℚ) := by positivity
  constructor
  · have : (0 : ℚ) ≤ (i : ℚ) / freq := by positivity
    linarith
  · have hlt : (i : ℚ) / freq < (n : ℚ) / freq := by
      exact (div_lt_div_iff_of_pos_right hfreq).mpr hin
    have hnd : (n : ℚ) / freq = dur := by
      field_simp
      linarith [hdur]
    have : (i : ℚ) / freq < dur := by rw [← hnd]; exact hlt
    linarith

theorem intRange_mem {a b x : ℤ} (hx : x ∈ intRange a b) : a ≤ x ∧ x < b := by
  rw [intRange_eq] at hx
  obtain ⟨i, hi, rfl⟩ := List.mem_map.mp hx
  have := List.mem_range.mp hi
  omega

/-- C4 (amended): for a reader whose per-record reads of a signal
succeed with the evenly spaced timestamps and `n` samples per record
(`freq * duration = n`), and any window `0 ≤ t0 ≤ t1` whose start lies
strictly inside the recording, `read_signal` clamps `t1` to the
recording duration and returns exactly those samples of the whole
recording whose timestamps `t` satisfy `t0 ≤ t < min t1 duration` —
the half-open-interval filter over every sample of every record.  (The
original claim fails when the claimed record range is empty with
`t0 = t1 = duration`: `read_signal` then reads the record one past the
end and raises instead of returning an empty result — see the
counterexample.) -/
theorem c4_read_signal_window (r : EdfReader) (signal : ℤ) (t0 t1 : ℚ)
    (n : Nat) (freq : ℚ) (samples : ℤ → List ℚ)
    (hdur : 0 < r.header.duration_of_data_record)
    (hfreq : 0 < freq)
    (hnd : freq * r.header.duration_of_data_record = (n : ℚ))
    (hread : ∀ rec : ℤ, 0 ≤ rec → rec < r.header.number_of_data_records →
      r.read_signal_from_record signal rec =
        .ok (recordTimes n freq r.header.duration_of_data_record rec,
          samples rec))
    (hlen : ∀ rec : ℤ, 0 ≤ rec → rec < r.header.number_of_data_records →
      (samples rec).length = n)
    (ht0 : 0 ≤ t0) (ht01 : t0 ≤ t1) (htlt : t0 < r.duration_s) :
    r.read_signal signal t0 t1 =
      .ok (let t1' := if t1 > r.duration_s then r.duration_s else t1
           let kept := (((intRange 0 r.header.number_of_data_records).map
             (fun rec =>
               (recordTimes n freq r.header.duration_of_data_record rec).zip
                 (samples rec))).flatten).filter
             (fun p => decide (t0 ≤ p.1) && decide (p.1 < t1'))
           (kept.map Prod.fst, kept.map Prod.snd)) := by
  have hds : r.duration_s =
      (r.header.number_of_data_records : ℚ) * r.header.duration_of_data_record :=
    rfl
  have hndr : 0 < r.header.number_of_data_records := by
    rcases lt_or_le 0 r.header.number_of_data_records with h | h
    · exact h
    · exfalso
      have hc : ((r.header.number_of_data_records : ℚ)) ≤ 0 := by exact_mod_cast h
      nlinarith [htlt, ht0, hds]
  unfold EdfReader.read_signal
  simp only []
  set t1' := if t1 > r.duration_s then r.duration_s else t1 with ht1def
  set rf := ⌊t0 / r.header.duration_of_data_record⌋ with hrfdef
  set rt := ⌈t1' / r.header.duration_of_data_record⌉ with hrtdef
  have hle1 : t1' ≤ r.duration_s := by
    rw [ht1def]
    by_cases hgt : t1 > r.duration_s
    · rw [if_pos hgt]
    · rw [if_neg hgt]
      exact le_of_not_lt hgt
  have ht01' : t0 ≤ t1' := by
    rw [ht1def]
    by_cases hgt : t1 > r.duration_s
    · rw [if_pos hgt]
      exact le_of_lt htlt
    · rw [if_neg hgt]
      exact ht01
  have h0f : 0 ≤ rf := by
    rw [hrfdef]
    exact Int.floor_nonneg.mpr (by positivity)
  have hfloor_le : (rf : ℚ) * r.header.duration_of_data_record ≤ t0 := by
    rw [hrfdef]
    exact (le_div_iff₀ hdur).mp (Int.floor_le _)
  have hceil_ge : t1' ≤ (rt : ℚ) * r.header.duration_of_data_record := by
    rw [hrtdef]
    exact (div_le_iff₀ hdur).mp (Int.le_ceil _)
  have hfn : rf < r.header.number_of_data_records := by
    rw [hrfdef]
    refine Int.floor_lt.mpr ?_
    rw [div_lt_iff₀ hdur]
    rw [hds] at htlt
    exact htlt
  have htn : rt ≤ r.header.number_of_data_records := by
    rw [hrtdef]
    refine Int.ceil_le.mpr ?_
    rw [div_le_iff₀ hdur]
    rw [hds] at hle1
    exact hle1
  have hfr_t : rf ≤ rt := by
    rw [hrfdef, hrtdef]
    have hdv : t0 / r.header.duration_of_data_record ≤
        t1' / r.header.duration_of_data_record := by gcongr
    exact le_trans (Int.floor_le_floor hdv) (Int.floor_le_ceil _)
  have hkill_low : ∀ rec : ℤ, rec < rf →
      ((recordTimes n freq r.header.duration_of_data_record rec).zip
        (samples rec)).filter
        (fun p => decide (t0 ≤ p.1) && decide (p.1 < t1')) = [] := by
    intro rec hrec
    refine List.filter_eq_nil_iff.mpr ?_
    rintro ⟨x, y⟩ hp
    obtain ⟨hx, _⟩ := List.of_mem_zip hp
    obtain ⟨_, hub⟩ := recordTimes_bounds hfreq hnd x hx
    have h1 : ((rec : ℚ) + 1) ≤ (rf : ℚ) := by exact_mod_cast hrec
    have hxlt : x < t0 := by
      have h2 : r.header.duration_of_data_record * ((rec : ℚ) + 1) ≤
          r.header.duration_of_data_record * (rf : ℚ) :=
        mul_le_mul_of_nonneg_left h1 hdur.le
      nlinarith [hfloor_le]
    simp only [Bool.and_eq_true, decide_eq_true_eq, not_and]
    intro hc
    linarith
  have hkill_high : ∀ rec : ℤ, rt ≤ rec →
      ((recordTimes n freq r.header.duration_of_data_record rec).zip
        (samples rec)).filter
        (fun p => decide (t0 ≤ p.1) && decide (p.1 < t1')) = [] := by
    intro rec hrec
    refine List.filter_eq_nil_iff.mpr ?_
    rintro ⟨x, y⟩ hp
    obtain ⟨hx, _⟩ := List.of_mem_zip hp
    obtain ⟨hlb, _⟩ := recordTimes_bounds hfreq hnd x hx
    have h1 : (rt : ℚ) ≤ (rec : ℚ) := by exact_mod_cast hrec
    have hxge : t1' ≤ x := by
      have h2 : r.header.duration_of_data_record * (rt : ℚ) ≤
          r.header.duration_of_data_record * (rec : ℚ) :=
        mul_le_mul_of_nonneg_left h1 hdur.le
      nlinarith [hceil_ge]
    simp only [Bool.and_eq_true, decide_eq_true_eq, not_and]
    intro _
    exact not_lt.mpr hxge
  have hsplit : intRange 0 r.header.number_of_data_records =
      intRange 0 rf ++ intRange rf rt ++ intRange rt
        r.header.number_of_data_records := by
    rw [intRange_append h0f (le_trans hfr_t htn), intRange_append hfr_t htn,
      List.append_assoc]
  by_cases hcase : rf = rt
  · rw [if_pos hcase, hread rf h0f hfn, exceptOkBind]
    have hempty : t1' ≤ t0 := by
      have : (rt : ℚ) * r.header.duration_of_data_record =
          (rf : ℚ) * r.header.duration_of_data_record := by rw [hcase]
      nlinarith [hceil_ge, hfloor_le]
    have hfalse : ∀ (l : List (ℚ × ℚ)),
        l.filter (fun p => decide (t0 ≤ p.1) && decide (p.1 < t1')) = [] := by
      intro l
      refine List.filter_eq_nil_iff.mpr ?_
      rintro ⟨x, y⟩ _
      simp only [Bool.and_eq_true, decide_eq_true_eq, not_and]
      intro hc
      linarith
    rw [hfalse, hfalse]
    rfl
  · rw [if_neg hcase]
    have hfr_lt : rf < rt := lt_of_le_of_ne hfr_t hcase
    have hloop := readRecordsLoop_ok r signal
      (fun rec => recordTimes n freq r.header.duration_of_data_record rec)
      samples (intRange rf rt)
      (fun rec hrec => hread rec
        (by have := intRange_mem hrec; omega)
        (by have := intRange_mem hrec; omega))
    rw [hloop, exceptOkBind]
    have hz := zip_flatten_map
      (fun rec => recordTimes n freq r.header.duration_of_data_record rec)
      samples (intRange rf rt)
      (fun rec hrec => by
        show (recordTimes n freq r.header.duration_of_data_record rec).length =
          (samples rec).length
        rw [recordTimes_eq, List.length_map, List.length_range]
        exact (hlen rec (by have := intRange_mem hrec; omega)
          (by have := intRange_mem hrec; omega)).symm)
    have hG : (((intRange 0 r.header.number_of_data_records).map
        (fun rec =>
          (recordTimes n freq r.header.duration_of_data_record rec).zip
            (samples rec))).flatten).filter
        (fun p => decide (t0 ≤ p.1) && decide (p.1 < t1')) =
        (((intRange rf rt).map
          (fun rec =>
            (recordTimes n freq r.header.duration_of_data_record rec).zip
              (samples rec))).flatten).filter
        (fun p => decide (t0 ≤ p.1) && decide (p.1 < t1')) := by
      rw [hsplit, List.map_append, List.map_append, List.flatten_append,
        List.flatten_append, List.filter_append, List.filter_append]
      have hA : (((intRange 0 rf).map
          (fun rec =>
            (recordTimes n freq r.header.duration_of_data_record rec).zip
              (samples rec))).flatten).filter
          (fun p => decide (t0 ≤ p.1) && decide (p.1 < t1')) = [] := by
        rw [List.filter_flatten]
        refine List.flatten_eq_nil_iff.mpr ?_
        intro x hx
        rw [List.map_map] at hx
        obtain ⟨rec, hrec, rfl⟩ := List.mem_map.mp hx
        exact hkill_low rec (intRange_mem hrec).2
      have hC : (((intRange rt r.header.number_of_data_records).map
          (fun rec =>
            (recordTimes n freq r.header.duration_of_data_record rec).zip
              (samples rec))).flatten).filter
          (fun p => decide (t0 ≤ p.1) && decide (p.1 < t1')) = [] := by
        rw [List.filter_flatten]
        refine List.flatten_eq_nil_iff.mpr ?_
        intro x hx
        rw [List.map_map] at hx
        obtain ⟨rec, hrec, rfl⟩ := List.mem_map.mp hx
        exact hkill_high rec (intRange_mem hrec).1
      rw [hA, hC, List.append_nil, List.nil_append]
    rw [hz, hG]
    rfl

theorem floor_three : ⌊(3 : ℚ)⌋ = 3 := by
  exact_mod_cast Int.floor_intCast 3

theorem ceil_three : ⌈(3 : ℚ)⌉ = 3 := by
  exact_mod_cast Int.ceil_intCast 3

/-- C4, counterexample to the original claim: on the synthetic 3-record
1-second 10 Hz file, `read_signal(0, 3.0, 3.0)` — an empty half-open
window `[3, 3)` at the end of the recording — raises instead of
returning the empty sample set: the record range `[⌊3/1⌋, ⌈3/1⌉) =
[3, 3)` is empty, but the code delegates equal endpoints to a single
read of record 3, which fails the bounds check. -/
theorem c4_counterexample :
    rdR.read_signal 0 3 3 = .error PyErr.valueError := by
  have hds : rdR.duration_s = 3 := by
    unfold EdfReader.duration_s
    show ((3 : ℤ) : ℚ) * 1 = 3
    norm_num
  have hdur : rdR.header.duration_of_data_record = 1 := rfl
  unfold EdfReader.read_signal
  simp only [hds, hdur]
  rw [if_neg (by norm_num : ¬((3 : ℚ) > 3))]
  have h31 : (3 : ℚ) / 1 = 3 := by norm_num
  rw [h31, floor_three, ceil_three, if_pos rfl]
  have hrec : rdR.read_signal_from_record 0 3 = .error PyErr.valueError := by
    unfold EdfReader.read_signal_from_record
    rw [if_neg (by decide), if_neg (by decide), if_pos (by decide)]
    rfl
  rw [hrec]
  rfl

theorem sigR_dig_to_phys (v : ℤ) : sigR.dig_to_phys v = (i16wrap v : ℚ) := by
  unfold EdfSignal.dig_to_phys
  show (1 : ℚ) * ((i16wrap v : ℚ) + ((32767 : ℚ) / 1 - (((32767 : ℤ)) : ℚ))) = _
  norm_num

theorem rdR_rsfr (rec : ℤ) (h1 : 0 ≤ rec) (h2 : rec < 3) :
    rdR.read_signal_from_record 0 rec =
      .ok (recordTimes 10 10 1 rec,
        (bytesToInt16 ((rdR.file.drop (512 + rec * 20).toNat).take 20)).map
          (fun v => (i16wrap v : ℚ))) := by
  unfold EdfReader.read_signal_from_record
  rw [if_neg (by decide), if_neg (by decide),
    if_neg (show ¬(rec ≥ rdR.header.number_of_data_records) from not_le.mpr h2)]
  have hptr : rdR.header.number_of_bytes_in_header +
      rdR.bytes_in_record * rec + rdR.record_pointers.getD (0 : ℤ).toNat 0 =
      512 + rec * 20 := by
    have hb : rdR.bytes_in_record = 20 := by decide
    have hp : rdR.record_pointers.getD (0 : ℤ).toNat 0 = 0 := by decide
    rw [hb, hp]
    show (512 : ℤ) + 20 * rec + 0 = 512 + rec * 20
    ring
  rw [hptr]
  simp only [pure_bind]
  have hlen20 : (rdR.record_bytes.getD (Int.toNat 0) 0).toNat = 20 := by decide
  have hs : rdR.header.signals.getD (Int.toNat 0) edfSignalDefault = sigR := rfl
  unfold fileRead
  rw [if_neg (show ¬((512 + rec * 20 : ℤ) < 0) by omega), exceptOkBind,
    hlen20, hs]
  simp only [sigR_dig_to_phys]
  rfl

theorem c4_witness :
    rdR.read_signal 0 1 2 =
      .ok (let t1' := if (2 : ℚ) > rdR.duration_s then rdR.duration_s else 2
           let kept := (((intRange 0 rdR.header.number_of_data_records).map
             (fun rec =>
               (recordTimes 10 10 rdR.header.duration_of_data_record rec).zip
                 ((bytesToInt16
                   ((rdR.file.drop (512 + rec * 20).toNat).take 20)).map
                     (fun v => (i16wrap v : ℚ))))).flatten).filter
             (fun p => decide ((1 : ℚ) ≤ p.1) && decide (p.1 < t1'))
           (kept.map Prod.fst, kept.map Prod.snd)) :=
  c4_read_signal_window rdR 0 1 2 10 10
    (fun rec => (bytesToInt16
      ((rdR.file.drop (512 + rec * 20).toNat).take 20)).map
        (fun v => (i16wrap v : ℚ)))
    (by show (0 : ℚ) < 1; norm_num)
    (by norm_num)
    (by show (10 : ℚ) * 1 = ((10 : ℕ) : ℚ); norm_num)
    (fun rec hr1 hr2 => rdR_rsfr rec hr1 hr2)
    (by
      intro rec hr1 hr2
      have h3 : rec < 3 := hr2
      interval_cases rec <;> decide)
    (by norm_num)
    (by norm_num)
    (by
      unfold EdfReader.duration_s
      show (1 : ℚ) < ((3 : ℤ) : ℚ) * 1
      norm_num)

/-! ## Lemmas: `phys_to_dig` overflow behaviour (C5) -/

/-- C5, counterexample to the original claim: for the unit-gain signal,
the physical value `100000` maps to the digital value `100000`, far
outside `[-32768, 32767]`, yet `phys_to_dig` signals nothing and
returns `100000 mod 2^16 = 34464` — the silent `np.uint16` wrap. -/
theorem c5_counterexample :
    sigR.phys_to_dig 100000 = 34464 ∧
    (32767 : ℤ) < ratTrunc (((100000 : ℚ) - sigR.physical_max) / sigR.gain +
      (sigR.digital_max : ℚ)) := by
  have hd : ((100000 : ℚ) - sigR.physical_max) / sigR.gain +
      (sigR.digital_max : ℚ) = 100000 := by
    show ((100000 : ℚ) - 32767) / 1 + ((32767 : ℤ) : ℚ) = 100000
    norm_num
  have ht : ratTrunc (((100000 : ℚ) - sigR.physical_max) / sigR.gain +
      (sigR.digital_max : ℚ)) = 100000 := by
    rw [hd]
    unfold ratTrunc
    rw [if_neg (by norm_num)]
    exact_mod_cast Int.floor_intCast 100000
  constructor
  · show u16wrap (ratTrunc (((100000 : ℚ) - sigR.physical_max) / sigR.gain +
      (sigR.digital_max : ℚ))) = 34464
    rw [ht]
    decide
  · rw [ht]
    decide

/-- C5 (amended): `phys_to_dig` never signals an overflow — it always
returns the `np.uint16` wrap of the truncated digital value, a number in
`[0, 65536)`; when the truncated digital value does lie in the signed
16-bit range, reinterpreting the returned unsigned word as int16
(`i16wrap`) recovers it exactly. -/
theorem c5_phys_to_dig_wrap (s : EdfSignal) (value : ℚ)
    (hlo : -32768 ≤ ratTrunc ((value - s.physical_max) / s.gain +
      (s.digital_max : ℚ)))
    (hhi : ratTrunc ((value - s.physical_max) / s.gain +
      (s.digital_max : ℚ)) ≤ 32767) :
    i16wrap (s.phys_to_dig value) =
      ratTrunc ((value - s.physical_max) / s.gain + (s.digital_max : ℚ)) ∧
    0 ≤ s.phys_to_dig value ∧ s.phys_to_dig value < 65536 := by
  unfold EdfSignal.phys_to_dig u16wrap i16wrap
  omega

theorem c5_witness :
    i16wrap (sigR.phys_to_dig 5) =
      ratTrunc (((5 : ℚ) - sigR.physical_max) / sigR.gain +
        (sigR.digital_max : ℚ)) ∧
    0 ≤ sigR.phys_to_dig 5 ∧ sigR.phys_to_dig 5 < 65536 := by
  have hd : ((5 : ℚ) - sigR.physical_max) / sigR.gain +
      (sigR.digital_max : ℚ) = 5 := by
    show ((5 : ℚ) - 32767) / 1 + ((32767 : ℤ) : ℚ) = 5
    norm_num
  have ht : ratTrunc (((5 : ℚ) - sigR.physical_max) / sigR.gain +
      (sigR.digital_max : ℚ)) = 5 := by
    rw [hd]
    unfold ratTrunc
    rw [if_neg (by norm_num)]
    exact_mod_cast Int.floor_intCast 5
  exact c5_phys_to_dig_wrap sigR 5 (by rw [ht]; decide) (by rw [ht]; decide)

/-! ## Lemmas: reader index checks (C6) -/

/-- C7, counterexample to the original claim: the full-span unsigned
descriptor (`digital 0..65535`, unit gain, `digital_min ≠ digital_max`,
gain derived from the four bounds) maps the in-range physical value
`40000` to digital `40000`; converting back reinterprets that word as
the int16 `-25536`, so the round trip is off by `65536`, far beyond one
quantization step of `1`. -/
theorem c7_counterexample :
    sigX.digital_min ≠ sigX.digital_max ∧
    sigX.gain = gainOf sigX.physical_min sigX.physical_max
      sigX.digital_min sigX.digital_max ∧
    sigX.physical_min ≤ 40000 ∧ (40000 : ℚ) ≤ sigX.physical_max ∧
    ¬(|sigX.dig_to_phys (sigX.phys_to_dig 40000) - 40000| ≤ sigX.gain) := by
  have hg1 : sigX.gain = 1 := by
    show gainOf 0 65535 0 65535 = 1
    unfold gainOf
    norm_num
  have hq : ((40000 : ℚ) - sigX.physical_max) / sigX.gain +
      (sigX.digital_max : ℚ) = 40000 := by
    rw [hg1]
    show ((40000 : ℚ) - 65535) / 1 + ((65535 : ℤ) : ℚ) = 40000
    norm_num
  have hp : sigX.phys_to_dig 40000 = 40000 := by
    show u16wrap (ratTrunc (((40000 : ℚ) - sigX.physical_max) / sigX.gain +
      (sigX.digital_max : ℚ))) = 40000
    rw [hq]
    have ht : ratTrunc (40000 : ℚ) = 40000 := by
      unfold ratTrunc
      rw [if_neg (by norm_num)]
      exact_mod_cast Int.floor_intCast 40000
    rw [ht]
    decide
  have hd : sigX.dig_to_phys 40000 = -25536 := by
    show sigX.gain * ((i16wrap 40000 : ℚ) +
      (sigX.physical_max / sigX.gain - (sigX.digital_max : ℚ))) = -25536
    rw [hg1]
    have hi : i16wrap 40000 = -25536 := by decide
    rw [hi]
    show (1 : ℚ) * (((-25536 : ℤ) : ℚ) + ((65535 : ℚ) / 1 - ((65535 : ℤ) : ℚ))) =
      -25536
    norm_num
  refine ⟨by decide, rfl, by norm_num [sigX], by norm_num [sigX], ?_⟩
  rw [hp, hd, hg1]
  norm_num

/-- C7 (amended): for a valid descriptor whose digital bounds lie within
the signed 16-bit range (`-32768 ≤ digital_min < digital_max ≤ 32767`,
`physical_min < physical_max`, gain derived from the four bounds), and
every physical value `v` in `[physical_min, physical_max]`,
`dig_to_phys (phys_to_dig v)` differs from `v` by at most one digital
quantization step: `|result - v| ≤ gain`.  (Without the signed-16-bit
restriction the unsigned wrap breaks the bound — see the
counterexample.) -/
theorem c7_roundtrip_within_gain (s : EdfSignal)
    (hpm : s.physical_min < s.physical_max)
    (hdm : s.digital_min < s.digital_max)
    (hdlo : -32768 ≤ s.digital_min) (hdhi : s.digital_max ≤ 32767)
    (hg : s.gain = gainOf s.physical_min s.physical_max
      s.digital_min s.digital_max)
    (v : ℚ) (hv1 : s.physical_min ≤ v) (hv2 : v ≤ s.physical_max) :
    |s.dig_to_phys (s.phys_to_dig v) - v| ≤ s.gain := by
  have hddQ : (0 : ℚ) < (s.digital_max : ℚ) - (s.digital_min : ℚ) := by
    have : (s.digital_min : ℚ) < (s.digital_max : ℚ) := by exact_mod_cast hdm
    linarith
  have hgpos : 0 < s.gain := by
    rw [hg]
    unfold gainOf
    exact div_pos (by linarith) hddQ
  have hgne : s.gain ≠ 0 := ne_of_gt hgpos
  set q := (v - s.physical_max) / s.gain + (s.digital_max : ℚ) with hqdef
  have hgv : s.gain = (s.physical_max - s.physical_min) /
      ((s.digital_max : ℚ) - (s.digital_min : ℚ)) := by
    rw [hg]
    rfl
  have hql : (s.digital_min : ℚ) ≤ q := by
    rw [hqdef]
    have hstep : (s.physical_min - s.physical_max) / s.gain =
        -((s.digital_max : ℚ) - (s.digital_min : ℚ)) := by
      rw [hgv, div_div_eq_mul_div,
        div_eq_iff (show s.physical_max - s.physical_min ≠ 0 from
          ne_of_gt (by linarith))]
      ring
    have hmono : (s.physical_min - s.physical_max) / s.gain ≤
        (v - s.physical_max) / s.gain := by
      gcongr
    rw [hstep] at hmono
    linarith
  have hqh : q ≤ (s.digital_max : ℚ) := by
    rw [hqdef]
    have : (v - s.physical_max) / s.gain ≤ 0 :=
      div_nonpos_of_nonpos_of_nonneg (by linarith) hgpos.le
    linarith
  have hd1 : s.digital_min ≤ ratTrunc q ∧ ratTrunc q ≤ s.digital_max := by
    unfold ratTrunc
    split
    · constructor
      · have h1 : (s.digital_min : ℚ) ≤ (⌈q⌉ : ℚ) := le_trans hql (Int.le_ceil q)
        exact_mod_cast h1
      · exact Int.ceil_le.mpr hqh
    · constructor
      · exact Int.le_floor.mpr hql
      · have h1 : (⌊q⌋ : ℚ) ≤ (s.digital_max : ℚ) := le_trans (Int.floor_le q) hqh
        exact_mod_cast h1
  have htr : |(ratTrunc q : ℚ) - q| ≤ 1 := by
    unfold ratTrunc
    split
    · rw [abs_of_nonneg (by linarith [Int.le_ceil q])]
      linarith [Int.ceil_lt_add_one q]
    · rw [abs_of_nonpos (by linarith [Int.floor_le q])]
      linarith [Int.sub_one_lt_floor q]
  have hi16 : i16wrap (u16wrap (ratTrunc q)) = ratTrunc q := by
    unfold i16wrap u16wrap
    omega
  have hfinal : s.dig_to_phys (s.phys_to_dig v) - v =
      s.gain * ((ratTrunc q : ℚ) - q) := by
    show s.gain * ((i16wrap (u16wrap (ratTrunc q)) : ℚ) +
      (s.physical_max / s.gain - (s.digital_max : ℚ))) - v = _
    rw [hi16]
    have hv : v = s.gain * (q - (s.digital_max : ℚ)) + s.physical_max := by
      rw [hqdef]
      field_simp
      ring
    rw [hv]
    field_simp
    ring
  rw [hfinal, abs_mul, abs_of_pos hgpos]
  calc s.gain * |(ratTrunc q : ℚ) - q| ≤ s.gain * 1 :=
        mul_le_mul_of_nonneg_left htr hgpos.le
    _ = s.gain := mul_one _

theorem c7_witness :
    |sigR.dig_to_phys (sigR.phys_to_dig 5) - 5| ≤ sigR.gain :=
  c7_roundtrip_within_gain sigR (by norm_num [sigR]) (by decide) (by decide)
    (by decide)
    (by
      show (1 : ℚ) = gainOf (-32768) 32767 (-32768) 32767
      unfold gainOf
      push_cast
      norm_num)
    5 (by norm_num [sigR]) (by norm_num [sigR])

/-! ## Lemmas: `close` and the header (C8) -/

/-- C8, counterexample to the original claim: `close` does not rewrite
the header.  Mutating the header's `reserved` field after the writer was
opened and then calling `close` leaves the on-disk reserved slot
(bytes 192..235 of the main header) holding its originally written
spaces, not the new value — only the counter field is patched. -/
theorem c8_counterexample :
    (({ wM with header := wM.header.set_reserved (ascii "NEW")} :
        EdfWriter).close.file.drop 192).take 44 = List.replicate 44 32 ∧
    (({ wM with header := wM.header.set_reserved (ascii "NEW")} :
        EdfWriter).close.file.drop 192).take 44 ≠ leftJust 44 (ascii "NEW") ∧
    ({ wM with header := wM.header.set_reserved (ascii "NEW")} :
        EdfWriter).close.closed = true := by
  refine ⟨by decide, by decide, rfl⟩

/-- C8 (amended): `close` patches only the width-8 record-counter field
at offset 236 of the on-disk header — every byte before offset 236 and
from offset 244 on is untouched, and no other header field is
rewritten — then marks the writer closed; the header object and cursor
are unchanged. -/
theorem c8_close_patches_counter (w : EdfWriter)
    (hfl : 244 ≤ w.file.length)
    (hndr : 0 ≤ w.header.number_of_data_records)
    (hfit : w.header.number_of_data_records < 10 ^ 8) :
    (w.close).file =
      fileWrite w.file 236
        (leftJust 8 (intToDec w.header.number_of_data_records)) ∧
    ((w.close).file.drop 236).take 8 =
      leftJust 8 (intToDec w.header.number_of_data_records) ∧
    (w.close).file.take 236 = w.file.take 236 ∧
    (w.close).file.drop 244 = w.file.drop 244 ∧
    (w.close).closed = true ∧
    (w.close).header = w.header ∧
    (w.close).pos = w.pos := by
  have hnr : (leftJust 8 (intToDec w.header.number_of_data_records)).length = 8 :=
    leftJust_length (intToDec_length_of_lt hndr hfit)
  have ht236 : (w.file.take 236).length = 236 := by
    rw [List.length_take]
    omega
  refine ⟨rfl, fileWrite_counter_slice (by omega) hnr, ?_, ?_, rfl, rfl, rfl⟩
  · show (fileWrite w.file 236
      (leftJust 8 (intToDec w.header.number_of_data_records))).take 236 =
      w.file.take 236
    unfold fileWrite
    rw [if_neg (by omega), List.append_assoc, List.take_left' ht236]
  · show (fileWrite w.file 236
      (leftJust 8 (intToDec w.header.number_of_data_records))).drop 244 =
      w.file.drop 244
    unfold fileWrite
    rw [if_neg (by omega), List.append_assoc]
    have h244 : (244 : Nat) = (w.file.take 236).length + 8 := by omega
    rw [h244, List.drop_append 8, List.drop_left' hnr, hnr, ht236]

theorem c8_witness :
    (244 ≤ wM.file.length ∧ 0 ≤ wM.header.number_of_data_records ∧
     wM.header.number_of_data_records < 10 ^ 8) ∧
    ((wM.close).file =
      fileWrite wM.file 236
        (leftJust 8 (intToDec wM.header.number_of_data_records)) ∧
    ((wM.close).file.drop 236).take 8 =
      leftJust 8 (intToDec wM.header.number_of_data_records) ∧
    (wM.close).file.take 236 = wM.file.take 236 ∧
    (wM.close).file.drop 244 = wM.file.drop 244 ∧
    (wM.close).closed = true ∧
    (wM.close).header = wM.header ∧
    (wM.close).pos = wM.pos) :=
  ⟨⟨by decide, by decide, by decide⟩,
   c8_close_patches_counter wM (by decide) (by decide) (by decide)⟩

/-! ## Lemmas: the signals setter and derived counts (C9) -/

/-- C9, counterexample to the original claim: the invariant
`number_of_bytes_in_header = 256 + 256 * number_of_signals` is *not*
maintained across all public operations — `number_of_bytes_in_header`
has a public property setter of its own, and assigning `0` through it
breaks the equality without touching the signal list. -/
theorem c9_counterexample :
    (hdrM.set_number_of_bytes_in_header 0).number_of_bytes_in_header ≠
      256 + ((hdrM.set_number_of_bytes_in_header 0).signals.length : ℤ) * 256 ∧
    (hdrM.set_number_of_bytes_in_header 0).signals = hdrM.signals ∧
    (hdrM.set_number_of_bytes_in_header 0).number_of_signals =
      hdrM.number_of_signals :=
  ⟨by decide, rfl, rfl⟩

/-- C9 (amended): replacing the signal list by `n` descriptors sets
`number_of_signals = n` and `number_of_bytes_in_header = 256 + 256 n`
and stores the list; the other header setters (`reserved`,
`number_of_data_records`, `duration_of_data_record`) leave all three of
these fields unchanged, so they preserve the equality — but
`number_of_bytes_in_header` is itself publicly settable to an arbitrary
value, so the equality is not an invariant of the whole interface. -/
theorem c9_set_signals_contract (h : EdfHeader) (values : List EdfSignal)
    (v : ℤ) (bs : Bytes) (d : ℚ) (z : ℤ) :
    (h.set_signals values).number_of_signals = (values.length : ℤ) ∧
    (h.set_signals values).number_of_bytes_in_header =
      256 + (values.length : ℤ) * 256 ∧
    (h.set_signals values).signals = values ∧
    ((h.set_number_of_data_records v).number_of_bytes_in_header =
        h.number_of_bytes_in_header ∧
      (h.set_number_of_data_records v).number_of_signals =
        h.number_of_signals ∧
      (h.set_number_of_data_records v).signals = h.signals) ∧
    ((h.set_reserved bs).number_of_bytes_in_header =
        h.number_of_bytes_in_header ∧
      (h.set_reserved bs).number_of_signals = h.number_of_signals ∧
      (h.set_reserved bs).signals = h.signals) ∧
    ((h.set_duration_of_data_record d).number_of_bytes_in_header =
        h.number_of_bytes_in_header ∧
      (h.set_duration_of_data_record d).number_of_signals =
        h.number_of_signals ∧
      (h.set_duration_of_data_record d).signals = h.signals) ∧
    (h.set_number_of_bytes_in_header z).number_of_bytes_in_header = z :=
  ⟨rfl, rfl, rfl, ⟨rfl, rfl, rfl⟩, ⟨rfl, rfl, rfl⟩, ⟨rfl, rfl, rfl⟩, rfl⟩

/-! ## Lemmas: the sex setter (C10) -/

theorem set_sex_ok_mem {v s : Bytes} (h : EdfSubjectId.set_sex v = .ok s) :
    s = ascii "M" ∨ s = ascii "F" ∨ s = ascii "X" := by
  unfold EdfSubjectId.set_sex at h
  simp only [] at h
  by_cases hc : ((if (trimBytes v).isEmpty = true then ascii "X"
      else trimBytes v) = ascii "M" ∨
    (if (trimBytes v).isEmpty = true then ascii "X"
      else trimBytes v) = ascii "F" ∨
    (if (trimBytes v).isEmpty = true then ascii "X"
      else trimBytes v) = ascii "X")
  · rw [if_pos (by
      simp only [Bool.or_eq_true, decide_eq_true_eq]
      tauto)] at h
    injection h with h
    subst h
    exact hc
  · rw [if_neg (by
      simp only [Bool.or_eq_true, decide_eq_true_eq]
      intro hor
      exact hc (by tauto))] at h
    cases h

theorem mk_str_sex_mem {c s d n : Bytes} {sid : EdfSubjectId}
    (h : EdfSubjectId.mk_str c s d n = .ok sid) :
    sid.sex = ascii "M" ∨ sid.sex = ascii "F" ∨ sid.sex = ascii "X" := by
  unfold EdfSubjectId.mk_str at h
  cases hsx : EdfSubjectId.set_sex s with
  | error e =>
    rw [hsx] at h
    cases h
  | ok sx =>
    rw [hsx, exceptOkBind] at h
    cases hdb : EdfSubjectId.set_dob_str d with
    | error e =>
      rw [hdb] at h
      cases h
    | ok db =>
      rw [hdb, exceptOkBind] at h
      injection h with h
      subst h
      exact set_sex_ok_mem hsx

/-- C10: the `sex` setter strips surrounding whitespace, normalizes a
blank value to `'X'`, accepts exactly `'M'`, `'F'`, `'X'` (returning the
stripped value), and rejects anything else with `ValueError`; hence
every successfully constructed subject identity has
`sex ∈ {'M', 'F', 'X'}`. -/
theorem c10_set_sex_normalizes (v1 v2 v3 c s d n : Bytes)
    (sid : EdfSubjectId)
    (h1 : (trimBytes v1).isEmpty = true)
    (h2 : trimBytes v2 = ascii "M" ∨ trimBytes v2 = ascii "F" ∨
      trimBytes v2 = ascii "X")
    (h3a : (trimBytes v3).isEmpty = false)
    (h3b : ¬(trimBytes v3 = ascii "M" ∨ trimBytes v3 = ascii "F" ∨
      trimBytes v3 = ascii "X"))
    (hmk : EdfSubjectId.mk_str c s d n = .ok sid) :
    EdfSubjectId.set_sex v1 = .ok (ascii "X") ∧
    EdfSubjectId.set_sex v2 = .ok (trimBytes v2) ∧
    EdfSubjectId.set_sex v3 = .error .valueError ∧
    (sid.sex = ascii "M" ∨ sid.sex = ascii "F" ∨ sid.sex = ascii "X") := by
  refine ⟨?_, ?_, ?_, mk_str_sex_mem hmk⟩
  · unfold EdfSubjectId.set_sex
    simp only [h1, reduceIte]
    rw [if_pos (by decide)]
  · unfold EdfSubjectId.set_sex
    have hne : (trimBytes v2).isEmpty = false := by
      rcases h2 with h2 | h2 | h2 <;> rw [h2] <;> decide
    simp only [hne, reduceIte]
    rw [if_pos (by
      simp only [Bool.or_eq_true, decide_eq_true_eq]
      tauto)]
    rfl
  · unfold EdfSubjectId.set_sex
    simp only [h3a, reduceIte]
    rw [if_neg (by
      simp only [Bool.or_eq_true, decide_eq_true_eq]
      intro hor
      exact h3b (by tauto))]

theorem c10_witness :
    ((trimBytes (ascii "  ")).isEmpty = true ∧
     (trimBytes (ascii " M ") = ascii "M" ∨
       trimBytes (ascii " M ") = ascii "F" ∨
       trimBytes (ascii " M ") = ascii "X") ∧
     (trimBytes (ascii "Q")).isEmpty = false ∧
     ¬(trimBytes (ascii "Q") = ascii "M" ∨ trimBytes (ascii "Q") = ascii "F" ∨
       trimBytes (ascii "Q") = ascii "X") ∧
     EdfSubjectId.mk_str (ascii "P") (ascii "F") (ascii "X") (ascii "N") =
       .ok ⟨ascii "P", ascii "F", none, ascii "N"⟩) ∧
    (EdfSubjectId.set_sex (ascii "  ") = .ok (ascii "X") ∧
     EdfSubjectId.set_sex (ascii " M ") = .ok (trimBytes (ascii " M ")) ∧
     EdfSubjectId.set_sex (ascii "Q") = .error .valueError ∧
     ((⟨ascii "P", ascii "F", none, ascii "N"⟩ : EdfSubjectId).sex = ascii "M" ∨
      (⟨ascii "P", ascii "F", none, ascii "N"⟩ : EdfSubjectId).sex = ascii "F" ∨
      (⟨ascii "P", ascii "F", none, ascii "N"⟩ : EdfSubjectId).sex = ascii "X")) :=
  ⟨⟨by decide, by decide, by decide, by decide, rfl⟩,
   c10_set_sex_normalizes (ascii "  ") (ascii " M ") (ascii "Q") (ascii "P")
     (ascii "F") (ascii "X") (ascii "N")
     ⟨ascii "P", ascii "F", none, ascii "N"⟩
     (by decide) (by decide) (by decide) (by decide) rfl⟩
